import Mathlib

/-!
Verification of the ComfyUI workflow-analysis engine of FileExplorerPro
(`src/workflow_analysis.py`) against its natural-language specification.

The Python module is shallowly embedded below.  Dynamic Python values that the
analysed code actually distinguishes are modelled by dedicated Lean types:
node records are `NodeRec` (every field optional, mirroring `dict.get`),
widget values are `WVal` (strings, integers and nested lists; the code treats
floats exactly like integers under `str`, so they are not modelled
separately), links are 6-tuples `Link` with integer endpoints (as produced by
ComfyUI's JSON), and node identifiers are strings (the code stringifies every
key).  Python exceptions are modelled by explicit error constructors, and the
unbounded Python recursion is modelled with an explicit fuel parameter chosen
large enough; a theorem below proves the chosen fuel is never exhausted.

`int(...)` is modelled by `pyIntOfStr`, which accepts an optional leading
minus sign followed by decimal digits (Python's `int` additionally strips
whitespace and accepts `+`/underscores; no claim depends on those corners),
and `str(...)` by `pyStrOfInt` / `pyStrW`.
-/

/-- Python's substring test `needle in hay` for strings. -/
def strContains (hay needle : String) : Bool :=
  (List.range (hay.data.length + 1)).any (fun i => needle.data.isPrefixOf (hay.data.drop i))

/-- Decimal digits of `n`, most significant first, with explicit fuel so that
the definition reduces definitionally (any `fuel > n` gives the digits). -/
def natDigitsAux : Nat → Nat → List Char
  | 0, _ => []
  | Nat.succ fuel, n =>
    if n < 10 then [Char.ofNat (48 + n)]
    else natDigitsAux fuel (n / 10) ++ [Char.ofNat (48 + n % 10)]

/-- Decimal digit list of a natural number. -/
def natDigitsL (n : Nat) : List Char := natDigitsAux (n + 1) n

/-- Python's `str` on an `int` value. -/
def pyStrOfInt (n : Int) : String :=
  if n < 0 then String.mk ('-' :: natDigitsL n.natAbs) else String.mk (natDigitsL n.natAbs)

/-- Value of a decimal digit character. -/
def digitVal (c : Char) : Option Nat :=
  if '0' ≤ c ∧ c ≤ '9' then some (c.toNat - 48) else none

/-- Parse a digit list given least-significant digit first. -/
def parseRevDigits : List Char → Option Nat
  | [] => some 0
  | c :: rest =>
    match digitVal c, parseRevDigits rest with
    | some d, some m => some (d + 10 * m)
    | _, _ => none

/-- Parse a nonempty run of decimal digits (most significant first). -/
def pyNatOfDigits (l : List Char) : Option Nat :=
  if l.isEmpty then none else parseRevDigits l.reverse

/-- Helper for `pyIntOfStr`: parse the character list of the string. -/
def pyIntOfChars : List Char → Option Int
  | [] => none
  | c :: rest =>
    if c = '-' then (pyNatOfDigits rest).map (fun m => -(Int.ofNat m))
    else (pyNatOfDigits (c :: rest)).map Int.ofNat

/-- Python's `int(s)` on a string: `some` value, or `none` for the
`ValueError` raised on non-numeric input. -/
def pyIntOfStr (s : String) : Option Int :=
  pyIntOfChars s.data

/-- Python's `str.lower()` (ASCII case mapping; the analysed strings are
ASCII). -/
def pyLower (s : String) : String := String.mk (s.data.map Char.toLower)

/-- Python's `str.strip()` (leading and trailing whitespace removed). -/
def pyStrip (s : String) : String :=
  String.mk (((s.data.dropWhile Char.isWhitespace).reverse.dropWhile Char.isWhitespace).reverse)

/-- `os.path.basename`, modelled with `/` as the path separator (the spec
only requires stripping leading directories from the final component). -/
def os_path_basename (s : String) : String :=
  String.mk ((s.data.reverse.takeWhile (fun c => !(c = '/'))).reverse)

/-! ## Data model -/

/-- A Python value as it occurs in `widgets_values` (strings, ints — floats
behave like ints under `str` — and nested lists). -/
inductive WVal where
  | s : String → WVal
  | i : Int → WVal
  | ls : List WVal → WVal

mutual
/-- Decidable equality on `WVal` (the nested list rules out `deriving`). -/
def WVal.decEq : (a b : WVal) → Decidable (a = b)
  | .s x, .s y =>
    if h : x = y then .isTrue (by rw [h]) else .isFalse (by intro hh; injection hh; contradiction)
  | .i x, .i y =>
    if h : x = y then .isTrue (by rw [h]) else .isFalse (by intro hh; injection hh; contradiction)
  | .ls l, .ls m =>
    match WVal.decEqList l m with
    | .isTrue h => .isTrue (by rw [h])
    | .isFalse h => .isFalse (by intro hh; injection hh; contradiction)
  | .s _, .i _ => .isFalse (fun h => WVal.noConfusion h)
  | .s _, .ls _ => .isFalse (fun h => WVal.noConfusion h)
  | .i _, .s _ => .isFalse (fun h => WVal.noConfusion h)
  | .i _, .ls _ => .isFalse (fun h => WVal.noConfusion h)
  | .ls _, .s _ => .isFalse (fun h => WVal.noConfusion h)
  | .ls _, .i _ => .isFalse (fun h => WVal.noConfusion h)
/-- Decidable equality on lists of `WVal`. -/
def WVal.decEqList : (l m : List WVal) → Decidable (l = m)
  | [], [] => .isTrue rfl
  | [], _ :: _ => .isFalse (fun h => List.noConfusion h)
  | _ :: _, [] => .isFalse (fun h => List.noConfusion h)
  | a :: l, b :: m =>
    match WVal.decEq a b, WVal.decEqList l m with
    | .isTrue h1, .isTrue h2 => .isTrue (by rw [h1, h2])
    | .isFalse h1, _ => .isFalse (by intro hh; injection hh; contradiction)
    | _, .isFalse h2 => .isFalse (by intro hh; injection hh; contradiction)
end

instance : DecidableEq WVal := WVal.decEq

mutual
/-- Python's `repr` of a `WVal` (used by `str` on lists). -/
def pyReprW : WVal → String
  | .s x => "'" ++ x ++ "'"
  | .i n => pyStrOfInt n
  | .ls l => "[" ++ String.intercalate ", " (pyReprWList l) ++ "]"
/-- `repr` of each element of a list of `WVal`s. -/
def pyReprWList : List WVal → List String
  | [] => []
  | v :: vs => pyReprW v :: pyReprWList vs
end

/-- Python's `str` of a `WVal`. -/
def pyStrW : WVal → String
  | .s x => x
  | .i n => pyStrOfInt n
  | .ls l => pyReprW (.ls l)

/-- An input-slot descriptor as stored in a node's `inputs` list. -/
structure InputDef where
  name? : Option String
  type? : Option String
deriving DecidableEq

/-- A workflow node record.  Every field is optional, mirroring the Python
code's `dict.get` accesses (`id` is only consulted when `nodes` arrives as a
list). -/
structure NodeRec where
  id? : Option WVal
  type? : Option String
  title? : Option String
  mode? : Option Int
  inputs? : Option (List InputDef)
  widgets_values? : Option (List WVal)
deriving DecidableEq

/-- A link: `[link_num, output_node_id, output_idx, input_node_id, input_idx, type]`. -/
structure Link where
  lid : Int
  src : Int
  srcSlot : Int
  tgt : Int
  tgtSlot : Nat
  ptype : String
deriving DecidableEq

/-- A finding recorded under a category (`description?` is used only by the
"Source Nodes (No Parameters)" entries, which carry no `type`/`value`). -/
structure Finding where
  node_id : String
  node_type : String
  title : String
  type? : Option String
  value? : Option WVal
  description? : Option String
deriving DecidableEq

/-- The node mapping: an insertion-ordered dict from string node id to record. -/
abbrev NodeMap := List (String × NodeRec)

/-- The category map: an insertion-ordered dict from category name to findings. -/
abbrev CatMap := List (String × List Finding)

/-- Dict lookup `nodes.get(nid)`. -/
def lookupNode (nodes : NodeMap) (nid : String) : Option NodeRec :=
  (nodes.find? (fun p => p.1 == nid)).map (·.2)

/-- Dict insertion `d[k] = v`: replaces in place (Python dicts keep the
original insertion position on update), else appends. -/
def dictInsert (m : NodeMap) (k : String) (v : NodeRec) : NodeMap :=
  if (m.find? (fun p => p.1 == k)).isSome then
    m.map (fun p => if p.1 == k then (k, v) else p)
  else m ++ [(k, v)]

/-- `identified_inputs.get(category)`. -/
def catLookup (m : CatMap) (c : String) : Option (List Finding) :=
  (m.find? (fun p => p.1 == c)).map (·.2)

/-- `if category not in identified: identified[category] = []` followed by
`identified[category].append(f)`. -/
def catAppend (m : CatMap) (c : String) (f : Finding) : CatMap :=
  if (m.find? (fun p => p.1 == c)).isSome then
    m.map (fun p => if p.1 == c then (p.1, p.2 ++ [f]) else p)
  else m ++ [(c, [f])]

/-- `node_data.get('mode', 0)`. -/
def pyMode (nd : NodeRec) : Int := nd.mode?.getD 0

/-- `'widgets_values' in node_data and node_data['widgets_values']`
(present and truthy, i.e. a nonempty list). -/
def widgetsTruthy (nd : NodeRec) : Bool :=
  match nd.widgets_values? with
  | some l => !l.isEmpty
  | none => false

/-! ## Edge index and sink locator -/

/-- `get_node_inputs_from_links`: all links feeding into `target_node_id`,
in order.  `none` models the `ValueError` raised by `int(target_node_id)`
when the id string is not numeric. -/
def get_node_inputs_from_links (target_node_id : String) (all_links : List Link) :
    Option (List Link) :=
  match pyIntOfStr target_node_id with
  | none => none
  | some t => some (all_links.filter (fun l => l.tgt == t))

/-- The qualifying test of `find_image_save_node`: type contains a save
keyword, and either some declared input has type `image` (case-insensitive),
or — only when there is no `inputs` key — the type is exactly `"Save Image"`. -/
def isImageSaveNode (nd : NodeRec) : Bool :=
  (["save", "output", "export"].any (fun k => strContains (pyLower (nd.type?.getD "")) k)) &&
    (match nd.inputs? with
     | some defs => defs.any (fun d => pyLower (d.type?.getD "") == "image")
     | none => nd.type? == some "Save Image")

/-- `find_image_save_node`: first qualifying node in mapping order. -/
def find_image_save_node (nodes : NodeMap) : Option (String × NodeRec) :=
  nodes.find? (fun p => isImageSaveNode p.2)

/-! ## Text Resolver (`_handle_conditioning_link` / `_trace_prompt_source`)

The Python recursion is unbounded; it is modelled with fuel.  `PRes.fuelOut`
records fuel exhaustion (proved unreachable for the fuel used by the
program), `PRes.exn` a Python exception escaping the call. -/

/-- Result of `_trace_prompt_source`: the collected parts together with the
updated local `prompt_visited` set. -/
inductive PRes where
  | fuelOut
  | exn
  | ok (parts : List String) (visited : List String)
deriving DecidableEq

/-- Result of the loop over a node's incoming links inside
`_trace_prompt_source` (parts, visited, `found_upstream_text`). -/
inductive CRes where
  | fuelOut
  | exn
  | ok (parts : List String) (visited : List String) (found : Bool)
deriving DecidableEq

/-- The loop over `source_incoming_links`: for each link whose type is
STRING/TEXT/CONDITIONING, recursively trace the source (via `tps`) and
append its parts when nonempty, setting `found_upstream_text`. -/
def trace_prompt_collect (tps : String → List String → PRes) :
    List Link → List String → List String → Bool → CRes
  | [], visited, parts, found => .ok parts visited found
  | l :: rest, visited, parts, found =>
    if l.ptype ∈ ["STRING", "TEXT", "CONDITIONING"] then
      match tps (pyStrOfInt l.src) visited with
      | .fuelOut => .fuelOut
      | .exn => .exn
      | .ok ps visited' =>
        if ps.isEmpty then trace_prompt_collect tps rest visited' parts found
        else trace_prompt_collect tps rest visited' (parts ++ ps) true
    else trace_prompt_collect tps rest visited parts found

/-- The `"concat"` branch's own widget parts:
`[str(v) for v in widgets_values if isinstance(v, (str, int, float))]`. -/
def concatWidgetParts (nd : NodeRec) : List String :=
  if widgetsTruthy nd then
    (nd.widgets_values?.getD []).filterMap (fun v =>
      match v with
      | WVal.ls _ => none
      | v => some (pyStrW v))
  else []

/-- The standard branch's fallback on `widgets_values` (first entry,
stringified unless already a string). -/
def fallbackWidgetParts (nd : NodeRec) : List String :=
  match (nd.widgets_values?.getD []).head? with
  | some (WVal.s x) => [x]
  | some v => [pyStrW v]
  | none => []

/-- `_trace_prompt_source`, with explicit fuel.  Mirrors the source: mark
visited first, bail out on missing/disabled nodes, dispatch on whether the
node's type contains `"concat"`. -/
def trace_prompt_source (nodes : NodeMap) (links : List Link) :
    Nat → String → List String → PRes
  | 0, _, _ => .fuelOut
  | Nat.succ fuel, node_id_to_trace, prompt_visited =>
    if node_id_to_trace ∈ prompt_visited then .ok [] prompt_visited
    else
      let prompt_visited' := node_id_to_trace :: prompt_visited
      match lookupNode nodes node_id_to_trace with
      | none => .ok [] prompt_visited'
      | some nd =>
        if pyMode nd != 0 then .ok [] prompt_visited'
        else
          match get_node_inputs_from_links node_id_to_trace links with
          | none => .exn
          | some incoming =>
            if strContains (pyLower (nd.type?.getD "Unknown Source")) "concat" then
              match trace_prompt_collect
                  (fun i v => trace_prompt_source nodes links fuel i v)
                  incoming prompt_visited' [] false with
              | .fuelOut => .fuelOut
              | .exn => .exn
              | .ok parts visited'' _ => .ok (parts ++ concatWidgetParts nd) visited''
            else
              match trace_prompt_collect
                  (fun i v => trace_prompt_source nodes links fuel i v)
                  incoming prompt_visited' [] false with
              | .fuelOut => .fuelOut
              | .exn => .exn
              | .ok parts visited'' found =>
                if !found && widgetsTruthy nd then
                  .ok (parts ++ fallbackWidgetParts nd) visited''
                else .ok parts visited''

/-- The current node's input-slot name at the link's input index, lowered
(`None` when the node, its `inputs` list, or the index is unavailable). -/
def slotNameLower (nodes : NodeMap) (current_node_id : String) (link : Link) :
    Option String :=
  match lookupNode nodes current_node_id with
  | some nd =>
    match nd.inputs? with
    | some defs => (defs[link.tgtSlot]?).map (fun d => pyLower (d.name?.getD ""))
    | none => none
  | none => none

/-- Category decision of `_handle_conditioning_link` from the (lowered)
input-slot name; Python's `if input_name and "positive" in input_name`. -/
def condCategory (name? : Option String) : Option String :=
  match name? with
  | some nm =>
    if nm ≠ "" && strContains nm "positive" then some "Positive Prompts"
    else if nm ≠ "" && strContains nm "negative" then some "Negative Prompts"
    else none
  | none => none

/-- Result of `_handle_conditioning_link`: the (possibly extended)
`identified_inputs` mapping. -/
inductive HRes where
  | fuelOut
  | exn
  | ok (identified : CatMap)
deriving DecidableEq

/-- `_handle_conditioning_link`.  When a category is determined, runs the
prompt tracer from the edge's source with a fresh local visited set, joins
the parts with single spaces, strips, and appends a finding (dedup by exact
prompt value within the category).  When no category is determined, nothing
at all happens. -/
def handle_conditioning_link (nodes : NodeMap) (links : List Link)
    (current_node_id : String) (link : Link) (identified : CatMap) : HRes :=
  -- `output_node_id = str(link[1])` is written out as `pyStrOfInt link.src`
  match condCategory (slotNameLower nodes current_node_id link) with
  | none => .ok identified
  | some category =>
    match trace_prompt_source nodes links (nodes.length + 1) (pyStrOfInt link.src) [] with
    | .fuelOut => .fuelOut
    | .exn => .exn
    | .ok all_prompt_parts _ =>
      if all_prompt_parts.isEmpty then .ok identified
      else
        let final_prompt := pyStrip (String.intercalate " " all_prompt_parts)
        let cur := (catLookup identified category).getD []
        if cur.any (fun it => it.value? == some (WVal.s final_prompt)) then .ok identified
        else
          .ok (catAppend identified category
            ⟨pyStrOfInt link.src,
             ((lookupNode nodes (pyStrOfInt link.src)).bind (·.type?)).getD "Unknown Type",
             ((lookupNode nodes (pyStrOfInt link.src)).bind (·.title?)).getD
               ("Node " ++ pyStrOfInt link.src),
             some "TEXT",
             some (WVal.s final_prompt),
             none⟩)

/-! ## Provenance Tracer (`trace_workflow_inputs` / `_traverse`) -/

/-- The tracer's state: the category map under construction plus the
analysis-wide `visited` set. -/
structure TState where
  identified : CatMap
  visited : List String
deriving DecidableEq

/-- Result of a `_traverse` step. -/
inductive TRes where
  | fuelOut
  | exn
  | ok (st : TState)
deriving DecidableEq

/-- The MODEL-edge classification of an enabled source node (lines 290-312
of the source): LoRA keywords in the type, else the `model`-input heuristic,
else a base model. -/
def classifyModelSource (output_node_data : NodeRec) : String :=
  let model_type := output_node_data.type?.getD "Unknown Model Source"
  if ["lora", "loraloader", "loadlora", "applylora", "apply_lora"].any
      (fun k => strContains (pyLower model_type) k) then "LoRA Models"
  else
    let has_model_input :=
      match output_node_data.inputs? with
      | some defs =>
        defs.any (fun d => pyLower (d.name?.getD "") == "model" && d.type? == some "MODEL")
      | none => false
    if has_model_input then "LoRA Models" else "Base Models"

/-- The loop over `incoming_links` inside `_traverse`, parameterized by the
recursive call `tv` (the fuel-decremented `_traverse`).  Mirrors the per-edge
dispatch on the link's payload type. -/
def traverse_links (nodes : NodeMap) (links : List Link)
    (tv : String → TState → TRes) :
    List Link → String → TState → TRes
  | [], _, st => .ok st
  | link :: rest, current_node_id, st =>
    let output_node_id := pyStrOfInt link.src
    if link.ptype == "CONDITIONING" then
      -- `_handle_conditioning_link` is called; `_traverse` is NOT called on
      -- the source (line 206 of the source is a bare `pass`).
      match handle_conditioning_link nodes links current_node_id link st.identified with
      | .fuelOut => .fuelOut
      | .exn => .exn
      | .ok identified' =>
        traverse_links nodes links tv rest current_node_id ⟨identified', st.visited⟩
    else if link.ptype == "MODEL" then
      match lookupNode nodes output_node_id with
      | some output_node_data =>
        if pyMode output_node_data == 0 then
          let model_value := output_node_data.widgets_values?.getD []
          if model_value.isEmpty then
            -- `if model_value:` fails: no categorization and, because the
            -- recursive `_traverse` call sits inside that block, no recursion.
            traverse_links nodes links tv rest current_node_id st
          else
            let model_type := output_node_data.type?.getD "Unknown Model Source"
            let category := classifyModelSource output_node_data
            let cur := (catLookup st.identified category).getD []
            let identified' :=
              if cur.any (fun it => it.node_id == output_node_id && it.type? == some link.ptype)
              then st.identified
              else catAppend st.identified category
                ⟨output_node_id, model_type,
                 output_node_data.title?.getD
                   ("Node " ++ output_node_id ++ " (" ++ model_type ++ ")"),
                 some link.ptype, some (WVal.ls model_value), none⟩
            match tv output_node_id ⟨identified', st.visited⟩ with
            | .fuelOut => .fuelOut
            | .exn => .exn
            | .ok st' => traverse_links nodes links tv rest current_node_id st'
        else
          match tv output_node_id st with
          | .fuelOut => .fuelOut
          | .exn => .exn
          | .ok st' => traverse_links nodes links tv rest current_node_id st'
      | none =>
        match tv output_node_id st with
        | .fuelOut => .fuelOut
        | .exn => .exn
        | .ok st' => traverse_links nodes links tv rest current_node_id st'
    else if link.ptype ∈ ["VAE", "LATENT", "CFG", "SAMPLER", "SCHEDULER", "DENOISE", "STEPS"] then
      match lookupNode nodes output_node_id with
      | some output_node_data =>
        if pyMode output_node_data == 0 then
          let output_type := output_node_data.type?.getD "Unknown Source"
          let identified' :=
            if widgetsTruthy output_node_data then
              catAppend st.identified link.ptype
                ⟨output_node_id, output_type,
                 output_node_data.title?.getD
                   ("Node " ++ output_node_id ++ " (" ++ output_type ++ ")"),
                 some link.ptype,
                 some (WVal.ls (output_node_data.widgets_values?.getD [])), none⟩
            else st.identified
          match tv output_node_id ⟨identified', st.visited⟩ with
          | .fuelOut => .fuelOut
          | .exn => .exn
          | .ok st' => traverse_links nodes links tv rest current_node_id st'
        else
          match tv output_node_id st with
          | .fuelOut => .fuelOut
          | .exn => .exn
          | .ok st' => traverse_links nodes links tv rest current_node_id st'
      | none =>
        match tv output_node_id st with
        | .fuelOut => .fuelOut
        | .exn => .exn
        | .ok st' => traverse_links nodes links tv rest current_node_id st'
    else
      match tv output_node_id st with
      | .fuelOut => .fuelOut
      | .exn => .exn
      | .ok st' => traverse_links nodes links tv rest current_node_id st'

/-- `_traverse`, with explicit fuel. -/
def _traverse (nodes : NodeMap) (links : List Link) :
    Nat → String → TState → TRes
  | 0, _, _ => .fuelOut
  | Nat.succ fuel, current_node_id, st =>
    if current_node_id ∈ st.visited then .ok st
    else
      let st' : TState := ⟨st.identified, current_node_id :: st.visited⟩
      match lookupNode nodes current_node_id with
      | none => .ok st'
      | some node_data =>
        let node_type := node_data.type?.getD "Unknown Type"
        let node_title := node_data.title?.getD
          ("Node " ++ current_node_id ++ " (" ++ node_type ++ ")")
        match get_node_inputs_from_links current_node_id links with
        | none => .exn
        | some incoming_links =>
          if incoming_links.isEmpty then
            if pyMode node_data == 0 && !widgetsTruthy node_data then
              .ok ⟨catAppend st'.identified "Source Nodes (No Parameters)"
                     ⟨current_node_id, node_type, node_title, none, none,
                      some "Node with no incoming links and no explicit parameters."⟩,
                   st'.visited⟩
            else .ok st'
          else
            traverse_links nodes links
              (fun i s => _traverse nodes links fuel i s)
              incoming_links current_node_id st'

/-- `trace_workflow_inputs`, started with fuel `|nodes| + 1` (proved
sufficient below: the result is never `fuelOut`). -/
def trace_workflow_inputs (nodes : NodeMap) (links : List Link)
    (start_node_id : String) : TRes :=
  _traverse nodes links (nodes.length + 1) start_node_id ⟨[], []⟩

/-! ## Result Normalizer (`process_workflow_metadata`) -/

/-- The categories whose single-string values get `os.path.basename` applied. -/
def filenameCategories : List String :=
  ["Base Models", "VAE", "CLIP", "Checkpoint", "Model", "LoRA Models"]

/-- Per-item normalization: a `value` that is a list of exactly one element
is replaced by that element (with basename extraction for string values in
the filename categories); everything else is passed through unchanged. -/
def normItem (category : String) (item : Finding) : Finding :=
  match item.value? with
  | some (WVal.ls [v]) =>
    match v with
    | WVal.s str =>
      ⟨item.node_id, item.node_type, item.title, item.type?,
       some (WVal.s (if category ∈ filenameCategories then os_path_basename str else str)),
       item.description?⟩
    | _ =>
      ⟨item.node_id, item.node_type, item.title, item.type?, some v, item.description?⟩
  | _ => item

/-- The loop of `process_workflow_metadata` over one category's items:
drop items whose `node_id` was already seen, normalize the survivors. -/
def normItems (category : String) :
    List Finding → List Finding → List String → List Finding
  | [], processed, _ => processed
  | item :: rest, processed, node_ids =>
    if item.node_id ∈ node_ids then normItems category rest processed node_ids
    else normItems category rest (processed ++ [normItem category item])
           (node_ids ++ [item.node_id])

/-- `process_workflow_metadata`. -/
def process_workflow_metadata (raw_metadata : CatMap) : CatMap :=
  raw_metadata.map (fun p => (p.1, normItems p.1 p.2 [] []))

/-! ## Graph Loader and top-level entry point (`analyze_comfyui_workflow`) -/

/-- The shape of the raw `nodes` value: a mapping (keys already stringified,
as JSON keys are strings), a list whose elements are node records (`some`) or
non-mapping values (`none`, which make `node_data.get('id')` raise an
`AttributeError`), or some other shape. -/
inductive PyNodesField where
  | dictN (entries : List (String × NodeRec))
  | listN (entries : List (Option NodeRec))
  | otherN
deriving DecidableEq

/-- A raw workflow mapping: optional `nodes` and `links` keys. -/
structure PyWorkflow where
  nodes? : Option PyNodesField
  links? : Option (List Link)
deriving DecidableEq

/-- The raw argument of `analyze_comfyui_workflow`: either not a dict at
all, or a workflow mapping. -/
inductive PyInput where
  | notDict
  | dict (w : PyWorkflow)
deriving DecidableEq

/-- Result of normalizing the `nodes` value. -/
inductive NormNodesRes where
  | exn
  | notAShape
  | okN (nodes : NodeMap)
deriving DecidableEq

/-- The list-form loop: records without an `id` are skipped (with a logged
warning); a non-mapping element raises (`.get` on a non-dict). -/
def buildNodesFromList : List (Option NodeRec) → NodeMap → NormNodesRes
  | [], acc => .okN acc
  | none :: _, _ => .exn
  | some node_data :: rest, acc =>
    match node_data.id? with
    | some idv => buildNodesFromList rest (dictInsert acc (pyStrW idv) node_data)
    | none => buildNodesFromList rest acc

/-- Normalization of `workflow.get('nodes', {})` into `nodes_dict`
(lines 408-423 of the source). -/
def normalize_nodes : Option PyNodesField → NormNodesRes
  | none => .okN []
  | some (.dictN entries) => .okN (entries.foldl (fun acc p => dictInsert acc p.1 p.2) [])
  | some (.listN entries) => buildNodesFromList entries []
  | some .otherN => .notAShape

/-- Observable outcome of `analyze_comfyui_workflow`: a raised exception,
fuel exhaustion (proved unreachable), the `None` "no result" signal, or a
returned category map. -/
inductive ARes where
  | exn
  | fuelOut
  | retNone
  | ok (result : CatMap)
deriving DecidableEq

/-- `analyze_comfyui_workflow`.  (`trace_workflow_inputs` re-derives the same
node mapping and links from the workflow dict in the source; as that
normalization is deterministic and already known to succeed here, the
normalized pair is passed directly.) -/
def analyze_comfyui_workflow : PyInput → ARes
  | .notDict => .retNone
  | .dict w =>
    match normalize_nodes w.nodes? with
    | .exn => .exn
    | .notAShape => .retNone
    | .okN nodes_dict =>
      let links := w.links?.getD []
      if nodes_dict.isEmpty || links.isEmpty then .retNone
      else
        match find_image_save_node nodes_dict with
        | none => .retNone
        | some (image_save_node_id, _) =>
          if image_save_node_id == "" then .retNone
          else
            match trace_workflow_inputs nodes_dict links image_save_node_id with
            | .fuelOut => .fuelOut
            | .exn => .exn
            | .ok st => .ok (process_workflow_metadata st.identified)

/-- Category lookup inside an analysis result (`none` unless the analysis
returned a map). -/
def aresLookup (r : ARes) (c : String) : Option (List Finding) :=
  match r with
  | .ok m => catLookup m c
  | _ => none

/-! ## Specification-side definitions (written from the spec's words, for
refinement comparisons) -/

/-- Spec: slot name contains `"positive"` → Positive Prompts, contains
`"negative"` → Negative Prompts, neither → no category. -/
def specCondCategory (name? : Option String) : Option String :=
  match name? with
  | some nm =>
    if strContains nm "positive" then some "Positive Prompts"
    else if strContains nm "negative" then some "Negative Prompts"
    else none
  | none => none

/-- Spec: a MODEL-edge source is a LoRA if its type contains one of the five
LoRA keywords (case-insensitively), or else if it declares an input named
`model` of declared type `MODEL`. -/
def specIsLoraSource (nd : NodeRec) : Bool :=
  (["lora", "loraloader", "loadlora", "applylora", "apply_lora"].any
    (fun k => strContains (pyLower (nd.type?.getD "")) k)) ||
  (match nd.inputs? with
   | some defs =>
     defs.any (fun d => pyLower (d.name?.getD "") == "model" && d.type? == some "MODEL")
   | none => false)

/-- Spec: LoRA sources go under "LoRA Models", everything else under
"Base Models". -/
def specClassifyModelSource (nd : NodeRec) : String :=
  if specIsLoraSource nd then "LoRA Models" else "Base Models"

/-- The amended characterization of when the entry point returns `None`. -/
def returnsNoneCond : PyInput → Prop
  | .notDict => True
  | .dict w =>
    match normalize_nodes w.nodes? with
    | .exn => False
    | .notAShape => True
    | .okN nds =>
      nds.isEmpty = true ∨ (w.links?.getD []).isEmpty = true ∨
      find_image_save_node nds = none ∨
      (find_image_save_node nds).map Prod.fst = some ""

/-! ## Concrete workflows used by the claim theorems -/

/-- Scenario E of the spec: CheckpointLoader → LoraLoader → KSampler → sink. -/
def wfEnodes : NodeMap :=
  [("1", ⟨none, some "SaveImage", none, none, some [⟨some "images", some "IMAGE"⟩], none⟩),
   ("2", ⟨none, some "KSampler", none, none, none, none⟩),
   ("3", ⟨none, some "LoraLoader", none, none, some [⟨some "model", some "MODEL"⟩],
     some [.s "lora.safetensors"]⟩),
   ("4", ⟨none, some "CheckpointLoaderSimple", none, none, none,
     some [.s "SDXL/base.safetensors"]⟩)]

def wfElinks : List Link :=
  [⟨0, 2, 0, 1, 0, "IMAGE"⟩, ⟨1, 3, 0, 2, 0, "MODEL"⟩, ⟨2, 4, 0, 3, 0, "MODEL"⟩]

def wfE : PyInput := .dict ⟨some (.dictN wfEnodes), some wfElinks⟩

/-- A CONDITIONING edge whose target slot name (`cond`) contains neither
`positive` nor `negative`; a recordable MODEL source sits upstream of the
edge's source. -/
def wfC1nodes : NodeMap :=
  [("1", ⟨none, some "SaveImage", none, none,
     some [⟨some "images", some "IMAGE"⟩, ⟨some "cond", some "CONDITIONING"⟩], none⟩),
   ("2", ⟨none, some "CLIPTextEncode", none, none, none, some [.s "hello"]⟩),
   ("3", ⟨none, some "CheckpointLoaderSimple", none, none, none,
     some [.s "model.safetensors"]⟩)]

def wfC1links : List Link :=
  [⟨0, 2, 0, 1, 1, "CONDITIONING"⟩, ⟨1, 3, 0, 2, 0, "MODEL"⟩]

/-- A workflow whose sink node sits under a non-numeric node key. -/
def wfC2nodes : NodeMap :=
  [("abc", ⟨none, some "SaveImage", none, none,
     some [⟨some "images", some "IMAGE"⟩], none⟩)]

def wfC2links : List Link := [⟨0, 2, 0, 5, 0, "IMAGE"⟩]

/-- A MODEL edge whose enabled source has no `widgets_values`; a recordable
VAE source sits upstream of it. -/
def wfC3nodes : NodeMap :=
  [("1", ⟨none, some "SaveImage", none, none, some [⟨some "images", some "IMAGE"⟩], none⟩),
   ("2", ⟨none, some "UNETLoader", none, none, none, none⟩),
   ("3", ⟨none, some "VAELoader", none, none, none, some [.s "vae.pt"]⟩)]

def wfC3links : List Link :=
  [⟨0, 2, 0, 1, 0, "MODEL"⟩, ⟨1, 3, 0, 2, 0, "VAE"⟩]

/-- One VAE source feeding two distinct consumers, both reachable from the
sink: the raw tracer records it twice under "VAE". -/
def wfC8nodes : NodeMap :=
  [("1", ⟨none, some "SaveImage", none, none, some [⟨some "images", some "IMAGE"⟩], none⟩),
   ("2", ⟨none, some "ImageScale", none, none, none, none⟩),
   ("3", ⟨none, some "ImageBlur", none, none, none, none⟩),
   ("4", ⟨none, some "VAELoader", none, none, none, some [.s "vae.pt"]⟩)]

def wfC8links : List Link :=
  [⟨0, 2, 0, 1, 0, "IMAGE"⟩, ⟨1, 3, 0, 1, 1, "MASK"⟩,
   ⟨2, 4, 0, 2, 0, "VAE"⟩, ⟨3, 4, 0, 3, 0, "VAE"⟩]

/-- A workflow whose MODEL source carries a nested singleton sequence in its
`widgets_values` (the data model explicitly allows nested sequences): the
tracer itself then records the nested single-element list value `[["a"]]`. -/
def wfC7nodes : NodeMap :=
  [("1", ⟨none, some "SaveImage", none, none, some [⟨some "images", some "IMAGE"⟩], none⟩),
   ("2", ⟨none, some "UNETLoader", none, none, none, some [.ls [.s "a"]]⟩)]

def wfC7links : List Link := [⟨0, 2, 0, 1, 0, "MODEL"⟩]

/-- The raw category map the tracer produces on `wfC7nodes`/`wfC7links`. -/
def c7raw : CatMap :=
  [("Base Models",
    [⟨"2", "UNETLoader", "Node 2 (UNETLoader)", some "MODEL",
      some (.ls [.ls [.s "a"]]), none⟩])]

/-- A sink with a `positive` CONDITIONING slot fed from a missing node. -/
def wfC9nodes : NodeMap :=
  [("1", ⟨none, some "SaveImage", none, none,
     some [⟨some "positive", some "CONDITIONING"⟩], none⟩)]

def wfC9links : List Link := [⟨0, 7, 0, 1, 0, "CONDITIONING"⟩]

/-- Category lookup inside a tracer result. -/
def tresLookup (r : TRes) (c : String) : Option (List Finding) :=
  match r with
  | .ok st => catLookup st.identified c
  | _ => none

/-! ## Fuel sufficiency: the recursion depth is bounded by the number of
unvisited node keys, so fuel `|nodes| + 1` is never exhausted. -/

/-- Number of node keys not yet in the visited set. -/
def unvisCount (nodes : NodeMap) (vis : List String) : Nat :=
  ((nodes.map Prod.fst).filter (fun k => decide (¬ k ∈ vis))).length

/-! ## Result Normalizer structure lemmas -/

/-- The dedup-by-`node_id` skeleton of `process_workflow_metadata`'s loop. -/
def dedupById : List Finding → List String → List Finding
  | [], _ => []
  | f :: rest, ids =>
    if f.node_id ∈ ids then dedupById rest ids
    else f :: dedupById rest (ids ++ [f.node_id])

/-! ## Missing `mode` behaves exactly like `mode = 0` -/

/-- Replace a node's `mode` by the value every consultation reads
(`node_data.get('mode', 0)`); for a record without `mode` this writes
`mode = 0` explicitly. -/
def normModeNode (nd : NodeRec) : NodeRec :=
  ⟨nd.id?, nd.type?, nd.title?, some (pyMode nd), nd.inputs?, nd.widgets_values?⟩

/-- Apply `normModeNode` to every node of the mapping. -/
def normModeMap (nodes : NodeMap) : NodeMap :=
  nodes.map (fun p => (p.1, normModeNode p.2))

/-- Decidable check: no finding's value is a single-element list wrapping a
single-element list. -/
def nestedSingleFree (m : CatMap) : Bool :=
  m.all (fun p => p.2.all (fun f =>
    match f.value? with
    | some (WVal.ls [WVal.ls [_]]) => false
    | _ => true))

/-! ## Theorems -/

theorem natDigitsAux_ne_nil (fuel n : Nat) (h : 0 < fuel) : natDigitsAux fuel n ≠ [] := by
  cases fuel with
  | zero => omega
  | succ f =>
    unfold natDigitsAux
    split
    · simp
    · simp

theorem natDigitsAux_digits (fuel n : Nat) :
    ∀ c ∈ natDigitsAux fuel n, '0' ≤ c ∧ c ≤ '9' := by
  induction fuel generalizing n with
  | zero => intro c hc; simp [natDigitsAux] at hc
  | succ f ih =>
    intro c hc
    unfold natDigitsAux at hc
    split at hc
    · rename_i hlt
      simp at hc
      subst hc
      interval_cases n <;> decide
    · rename_i hge
      rw [List.mem_append] at hc
      rcases hc with hc | hc
      · exact ih _ c hc
      · simp at hc
        subst hc
        have : n % 10 < 10 := Nat.mod_lt _ (by omega)
        interval_cases h : n % 10 <;> decide

theorem parseRev_natDigitsAux (fuel n : Nat) (h : n < fuel) :
    parseRevDigits (natDigitsAux fuel n).reverse = some n := by
  induction fuel generalizing n with
  | zero => omega
  | succ f ih =>
    unfold natDigitsAux
    split
    · rename_i hlt
      simp only [List.reverse_cons, List.reverse_nil, List.nil_append]
      interval_cases n <;> decide
    · rename_i hge
      rw [List.reverse_append]
      simp only [List.reverse_cons, List.reverse_nil, List.nil_append, List.cons_append]
      have hd : digitVal (Char.ofNat (48 + n % 10)) = some (n % 10) := by
        have : n % 10 < 10 := Nat.mod_lt _ (by omega)
        interval_cases h : n % 10 <;> decide
      have hih : parseRevDigits (natDigitsAux f (n / 10)).reverse = some (n / 10) := by
        apply ih
        omega
      simp only [parseRevDigits, hd, hih]
      congr 1
      omega

theorem natDigitsL_ne_nil (n : Nat) : natDigitsL n ≠ [] :=
  natDigitsAux_ne_nil (n + 1) n (by omega)

theorem pyIntOfStr_pyStrOfInt (n : Int) : pyIntOfStr (pyStrOfInt n) = some n := by
  by_cases hn : n < 0
  · have hdata : (pyStrOfInt n).data = '-' :: natDigitsL n.natAbs := by
      simp [pyStrOfInt, hn]
    rw [pyIntOfStr, hdata, pyIntOfChars]
    simp only [if_pos rfl]
    rw [pyNatOfDigits]
    have hne : ¬ (natDigitsL n.natAbs).isEmpty := by
      simpa [List.isEmpty_iff] using natDigitsL_ne_nil n.natAbs
    rw [if_neg hne]
    rw [natDigitsL, parseRev_natDigitsAux _ _ (by omega)]
    simp only [Option.map_some', Int.ofNat_eq_coe, if_true, ite_true, Option.some.injEq]
    omega
  · have hdata : (pyStrOfInt n).data = natDigitsL n.natAbs := by
      simp [pyStrOfInt, hn]
    rcases hl : natDigitsL n.natAbs with _ | ⟨c, rest⟩
    · exact absurd hl (natDigitsL_ne_nil n.natAbs)
    · have hcdig : '0' ≤ c ∧ c ≤ '9' := by
        apply natDigitsAux_digits (n.natAbs + 1) n.natAbs
        rw [← natDigitsL, hl]
        simp
      have hcne : ¬ c = '-' := by
        intro hc
        subst hc
        exact absurd hcdig.1 (by decide)
      rw [pyIntOfStr, hdata, hl, pyIntOfChars]
      rw [if_neg hcne]
      rw [pyNatOfDigits]
      rw [if_neg (by simp)]
      rw [← hl, natDigitsL, parseRev_natDigitsAux _ _ (by omega)]
      simp only [Option.map_some', Int.ofNat_eq_coe, if_true, ite_true, Option.some.injEq]
      omega

theorem pyIntOfStr_isSome_pyStrOfInt (n : Int) : (pyIntOfStr (pyStrOfInt n)).isSome = true := by
  rw [pyIntOfStr_pyStrOfInt]; rfl

/-! ## Helper lemmas -/

theorem condCategory_eq_spec (name? : Option String) :
    condCategory name? = specCondCategory name? := by
  cases name? with
  | none => rfl
  | some nm =>
    by_cases h : nm = ""
    · subst h; decide
    · simp [condCategory, specCondCategory, h]

theorem classifyModelSource_eq_spec (nd : NodeRec) :
    classifyModelSource nd = specClassifyModelSource nd := by
  have hk : (["lora", "loraloader", "loadlora", "applylora", "apply_lora"].any
      (fun k => strContains (pyLower (nd.type?.getD "Unknown Model Source")) k)) =
      (["lora", "loraloader", "loadlora", "applylora", "apply_lora"].any
      (fun k => strContains (pyLower (nd.type?.getD "")) k)) := by
    cases ht : nd.type? with
    | none => simp only [Option.getD_none]; decide
    | some t => simp only [Option.getD_some]
  simp only [classifyModelSource, specClassifyModelSource, specIsLoraSource]
  rw [hk]
  by_cases hC : (["lora", "loraloader", "loadlora", "applylora", "apply_lora"].any
      (fun k => strContains (pyLower (nd.type?.getD "")) k)) = true
  · simp [hC]
  · simp only [Bool.not_eq_true] at hC
    simp [hC]

theorem find?_key_map (l : CatMap) (k : String)
    (g : String × List Finding → String × List Finding)
    (hg : ∀ p, (g p).1 = p.1) :
    (l.map g).find? (fun p => p.1 == k) = (l.find? (fun p => p.1 == k)).map g := by
  induction l with
  | nil => rfl
  | cons a l ih =>
    simp only [List.map_cons, List.find?]
    rw [hg a]
    cases h : a.1 == k with
    | true => rfl
    | false => exact ih

theorem catLookup_catAppend_of_ne (m : CatMap) (c c' : String) (f : Finding)
    (h : ¬ c' = c) :
    catLookup (catAppend m c f) c' = catLookup m c' := by
  unfold catAppend
  split
  · unfold catLookup
    rw [find?_key_map m c' _ (fun p => by by_cases hpc : (p.1 == c) = true <;> simp [hpc])]
    cases hf : m.find? (fun p => p.1 == c') with
    | none => rfl
    | some q =>
      have hq' : q.1 = c' := by
        have hq0 := List.find?_some hf
        exact eq_of_beq hq0
      have hqc : (q.1 == c) = false := by
        rw [hq']
        exact beq_eq_false_iff_ne.mpr h
      simp [hqc, hq', h]
  · unfold catLookup
    have hone : List.find? (fun p => p.1 == c') [(c, [f])] = none := by
      have hcc : (c == c') = false := beq_eq_false_iff_ne.mpr (Ne.symm h)
      simp [List.find?, hcc]
    rw [List.find?_append, hone]
    cases hf : m.find? (fun p => p.1 == c') <;> simp [hf]

/-! ## Visited-set monotonicity -/

theorem trace_prompt_collect_mono
    (tps : String → List String → PRes)
    (hm : ∀ i v ps v', tps i v = .ok ps v' → v ⊆ v') :
    ∀ (ls : List Link) (vis parts : List String) (found : Bool)
      (ps' vis' : List String) (fnd' : Bool),
      trace_prompt_collect tps ls vis parts found = .ok ps' vis' fnd' → vis ⊆ vis' := by
  intro ls
  induction ls with
  | nil =>
    intro vis parts found ps' vis' fnd' h
    simp only [trace_prompt_collect] at h
    cases h
    exact List.Subset.refl _
  | cons l rest ih =>
    intro vis parts found ps' vis' fnd' h
    simp only [trace_prompt_collect] at h
    split at h
    · split at h
      · cases h
      · cases h
      · rename_i ps1 v1 heq
        have h1 : vis ⊆ v1 := hm _ _ _ _ heq
        split at h
        · exact h1.trans (ih _ _ _ _ _ _ h)
        · exact h1.trans (ih _ _ _ _ _ _ h)
    · exact ih _ _ _ _ _ _ h

theorem trace_prompt_source_mono :
    ∀ (fuel : Nat) (nodes : NodeMap) (links : List Link) (nid : String)
      (vis ps vis' : List String),
      trace_prompt_source nodes links fuel nid vis = .ok ps vis' → vis ⊆ vis' := by
  intro fuel
  induction fuel with
  | zero => intro nodes links nid vis ps vis' h; cases h
  | succ fuel ih =>
    intro nodes links nid vis ps vis' h
    have hsub : vis ⊆ nid :: vis := List.subset_cons_self _ _
    simp only [trace_prompt_source] at h
    split at h
    · cases h; exact List.Subset.refl _
    · split at h
      · cases h; exact hsub
      · split at h
        · cases h; exact hsub
        · split at h
          · cases h
          · split at h
            · split at h
              · cases h
              · cases h
              · rename_i parts1 vis1 fnd1 heq
                cases h
                exact hsub.trans
                  (trace_prompt_collect_mono _
                    (fun i v ps v' hh => ih nodes links i v ps v' hh)
                    _ _ _ _ _ _ _ heq)
            · split at h
              · cases h
              · cases h
              · rename_i parts1 vis1 fnd1 heq
                have h2 : vis ⊆ vis1 := hsub.trans
                  (trace_prompt_collect_mono _
                    (fun i v ps v' hh => ih nodes links i v ps v' hh)
                    _ _ _ _ _ _ _ heq)
                split at h
                · cases h; exact h2
                · cases h; exact h2

theorem traverse_links_mono
    (nodes : NodeMap) (links : List Link) (tv : String → TState → TRes)
    (htv : ∀ i s s', tv i s = .ok s' → s.visited ⊆ s'.visited) :
    ∀ (ls : List Link) (cur : String) (st st' : TState),
      traverse_links nodes links tv ls cur st = .ok st' → st.visited ⊆ st'.visited := by
  intro ls
  induction ls with
  | nil =>
    intro cur st st' h
    simp only [traverse_links] at h
    cases h
    exact List.Subset.refl _
  | cons l rest ih =>
    intro cur st st' h
    simp only [traverse_links] at h
    split at h
    · -- CONDITIONING
      split at h
      · cases h
      · cases h
      · have := ih _ _ _ h
        exact this
    · split at h
      · -- MODEL
        split at h
        · -- lookup some
          split at h
          · -- enabled
            split at h
            · -- empty widgets: nothing
              exact ih _ _ _ h
            · -- recorded, then recurse
              split at h
              · cases h
              · cases h
              · rename_i st1 heq
                exact (htv _ _ _ heq).trans (ih _ _ _ h)
          · -- disabled
            split at h
            · cases h
            · cases h
            · rename_i st1 heq
              exact (htv _ _ _ heq).trans (ih _ _ _ h)
        · -- lookup none
          split at h
          · cases h
          · cases h
          · rename_i st1 heq
            exact (htv _ _ _ heq).trans (ih _ _ _ h)
      · split at h
        · -- parameter types
          split at h
          · split at h
            · split at h
              · cases h
              · cases h
              · rename_i st1 heq
                exact (htv _ _ _ heq).trans (ih _ _ _ h)
            · split at h
              · cases h
              · cases h
              · rename_i st1 heq
                exact (htv _ _ _ heq).trans (ih _ _ _ h)
          · split at h
            · cases h
            · cases h
            · rename_i st1 heq
              exact (htv _ _ _ heq).trans (ih _ _ _ h)
        · -- other link types
          split at h
          · cases h
          · cases h
          · rename_i st1 heq
            exact (htv _ _ _ heq).trans (ih _ _ _ h)

theorem traverse_mono :
    ∀ (fuel : Nat) (nodes : NodeMap) (links : List Link) (nid : String)
      (st st' : TState),
      _traverse nodes links fuel nid st = .ok st' → st.visited ⊆ st'.visited := by
  intro fuel
  induction fuel with
  | zero => intro nodes links nid st st' h; cases h
  | succ fuel ih =>
    intro nodes links nid st st' h
    have hsub : st.visited ⊆ nid :: st.visited := List.subset_cons_self _ _
    unfold _traverse at h
    split at h
    · cases h; exact List.Subset.refl _
    · split at h
      · cases h; exact hsub
      · split at h
        · cases h
        · split at h
          · split at h
            · cases h; exact hsub
            · cases h; exact hsub
          · refine hsub.trans
              (traverse_links_mono nodes links _
                (fun i s s' hh => ih nodes links i s s' hh) _ _ _ _ h)

theorem filter_length_mono {l : List String} {p q : String → Bool}
    (h : ∀ a, p a = true → q a = true) :
    (l.filter p).length ≤ (l.filter q).length := by
  induction l with
  | nil => simp
  | cons a l ih =>
    cases hp : p a with
    | true =>
      rw [List.filter_cons_of_pos hp, List.filter_cons_of_pos (h a hp)]
      simpa using ih
    | false =>
      rw [List.filter_cons_of_neg (by simp [hp])]
      cases hq : q a with
      | true =>
        rw [List.filter_cons_of_pos hq]
        exact ih.trans (by simp)
      | false =>
        rw [List.filter_cons_of_neg (by simp [hq])]
        exact ih

theorem unvisCount_le_of_subset (nodes : NodeMap) {vis vis' : List String}
    (h : vis ⊆ vis') : unvisCount nodes vis' ≤ unvisCount nodes vis := by
  apply filter_length_mono
  intro a ha
  simp only [decide_eq_true_eq] at ha ⊢
  intro hmem
  exact ha (h hmem)

theorem filter_notmem_cons_lt {l : List String} {k : String} {vis : List String}
    (hk : k ∈ l) (hnv : ¬ k ∈ vis) :
    (l.filter (fun a => decide (¬ a ∈ k :: vis))).length <
      (l.filter (fun a => decide (¬ a ∈ vis))).length := by
  induction l with
  | nil => cases hk
  | cons a l ih =>
    by_cases hak : a = k
    · subst hak
      rw [List.filter_cons_of_neg (by simp), List.filter_cons_of_pos (by simpa using hnv)]
      have hle : (l.filter (fun b => decide (¬ b ∈ a :: vis))).length ≤
          (l.filter (fun b => decide (¬ b ∈ vis))).length := by
        apply filter_length_mono
        intro b hb
        simp only [decide_eq_true_eq, List.mem_cons] at hb ⊢
        intro hbv
        exact hb (Or.inr hbv)
      simp only [List.length_cons]
      omega
    · have hk' : k ∈ l := by
        cases hk with
        | head => exact absurd rfl hak
        | tail _ h => exact h
      have hih := ih hk'
      by_cases hav : a ∈ vis
      · rw [List.filter_cons_of_neg (by simp [hav]), List.filter_cons_of_neg (by simp [hav])]
        exact hih
      · rw [List.filter_cons_of_pos (by simp [hav, hak]),
          List.filter_cons_of_pos (by simpa using hav)]
        simp only [List.length_cons]
        omega

theorem unvisCount_insert_lt (nodes : NodeMap) {nid : String} {vis : List String}
    (hk : nid ∈ nodes.map Prod.fst) (hnv : ¬ nid ∈ vis) :
    unvisCount nodes (nid :: vis) < unvisCount nodes vis :=
  filter_notmem_cons_lt hk hnv

theorem unvisCount_le_length (nodes : NodeMap) (vis : List String) :
    unvisCount nodes vis ≤ nodes.length := by
  calc ((nodes.map Prod.fst).filter _).length
      ≤ (nodes.map Prod.fst).length := List.length_filter_le _ _
    _ = nodes.length := List.length_map _ _

theorem lookupNode_mem_keys {nodes : NodeMap} {nid : String} {nd : NodeRec}
    (h : lookupNode nodes nid = some nd) : nid ∈ nodes.map Prod.fst := by
  unfold lookupNode at h
  cases hf : nodes.find? (fun p => p.1 == nid) with
  | none => rw [hf] at h; cases h
  | some q =>
    have hq1 : q.1 = nid := by
      have hq0 := List.find?_some hf
      exact eq_of_beq hq0
    have hmem : q ∈ nodes := List.mem_of_find?_eq_some hf
    rw [← hq1]
    exact List.mem_map_of_mem Prod.fst hmem

theorem trace_prompt_collect_no_fuelOut (nodes : NodeMap) (fuel : Nat)
    (tps : String → List String → PRes)
    (hm : ∀ i v ps v', tps i v = .ok ps v' → v ⊆ v')
    (ht : ∀ i v, unvisCount nodes v < fuel → tps i v ≠ .fuelOut) :
    ∀ (ls : List Link) (vis parts : List String) (found : Bool),
      unvisCount nodes vis < fuel →
      trace_prompt_collect tps ls vis parts found ≠ .fuelOut := by
  intro ls
  induction ls with
  | nil =>
    intro vis parts found hlt h
    simp only [trace_prompt_collect] at h
    cases h
  | cons l rest ih =>
    intro vis parts found hlt h
    simp only [trace_prompt_collect] at h
    split at h
    · split at h
      · rename_i heq
        exact ht _ _ hlt heq
      · cases h
      · rename_i ps1 v1 heq
        have hsub : vis ⊆ v1 := hm _ _ _ _ heq
        have hlt1 : unvisCount nodes v1 < fuel :=
          Nat.lt_of_le_of_lt (unvisCount_le_of_subset nodes hsub) hlt
        split at h
        · exact ih _ _ _ hlt1 h
        · exact ih _ _ _ hlt1 h
    · exact ih _ _ _ hlt h

theorem trace_prompt_source_no_fuelOut :
    ∀ (fuel : Nat) (nodes : NodeMap) (links : List Link) (nid : String)
      (vis : List String),
      unvisCount nodes vis < fuel →
      trace_prompt_source nodes links fuel nid vis ≠ .fuelOut := by
  intro fuel
  induction fuel with
  | zero => intro nodes links nid vis hlt; omega
  | succ fuel ih =>
    intro nodes links nid vis hlt h
    simp only [trace_prompt_source] at h
    split at h
    · cases h
    · rename_i hnv
      split at h
      · cases h
      · rename_i nd hnd
        split at h
        · cases h
        · split at h
          · cases h
          · have hkey : nid ∈ nodes.map Prod.fst := lookupNode_mem_keys hnd
            have hlt' : unvisCount nodes (nid :: vis) < fuel := by
              have := unvisCount_insert_lt nodes hkey hnv
              omega
            split at h
            · split at h
              · rename_i heq
                exact trace_prompt_collect_no_fuelOut nodes fuel _
                  (fun i v ps v' hh => trace_prompt_source_mono fuel nodes links i v ps v' hh)
                  (fun i v hv => ih nodes links i v hv)
                  _ _ _ _ hlt' heq
              · cases h
              · cases h
            · split at h
              · rename_i heq
                exact trace_prompt_collect_no_fuelOut nodes fuel _
                  (fun i v ps v' hh => trace_prompt_source_mono fuel nodes links i v ps v' hh)
                  (fun i v hv => ih nodes links i v hv)
                  _ _ _ _ hlt' heq
              · cases h
              · split at h
                · cases h
                · cases h

theorem handle_conditioning_link_no_fuelOut
    (nodes : NodeMap) (links : List Link) (cur : String) (link : Link)
    (identified : CatMap) :
    handle_conditioning_link nodes links cur link identified ≠ .fuelOut := by
  intro h
  simp only [handle_conditioning_link] at h
  split at h
  · cases h
  · split at h
    · rename_i heq
      refine trace_prompt_source_no_fuelOut (nodes.length + 1) nodes links _ [] ?_ heq
      have := unvisCount_le_length nodes []
      omega
    · cases h
    · split at h
      · cases h
      · split at h
        · cases h
        · cases h

theorem traverse_links_no_fuelOut
    (nodes : NodeMap) (links : List Link) (fuel : Nat)
    (tv : String → TState → TRes)
    (hm : ∀ i s s', tv i s = .ok s' → s.visited ⊆ s'.visited)
    (ht : ∀ i s, unvisCount nodes s.visited < fuel → tv i s ≠ .fuelOut) :
    ∀ (ls : List Link) (cur : String) (st : TState),
      unvisCount nodes st.visited < fuel →
      traverse_links nodes links tv ls cur st ≠ .fuelOut := by
  intro ls
  induction ls with
  | nil =>
    intro cur st hlt h
    simp only [traverse_links] at h
    cases h
  | cons l rest ih =>
    intro cur st hlt h
    simp only [traverse_links] at h
    split at h
    · -- CONDITIONING
      split at h
      · rename_i heq
        exact handle_conditioning_link_no_fuelOut nodes links cur l st.identified heq
      · cases h
      · refine ih _ _ ?_ h
        exact hlt
    · split at h
      · -- MODEL
        split at h
        · split at h
          · split at h
            · refine ih _ _ ?_ h
              exact hlt
            · split at h
              · rename_i heq
                refine ht _ _ ?_ heq
                exact hlt
              · cases h
              · rename_i st1 heq
                have hsub0 := hm _ _ _ heq
                have hsub : st.visited ⊆ st1.visited := hsub0
                exact ih _ _
                  (Nat.lt_of_le_of_lt (unvisCount_le_of_subset nodes hsub) hlt) h
          · split at h
            · rename_i heq
              refine ht _ _ ?_ heq
              exact hlt
            · cases h
            · rename_i st1 heq
              have hsub0 := hm _ _ _ heq
              have hsub : st.visited ⊆ st1.visited := hsub0
              exact ih _ _
                (Nat.lt_of_le_of_lt (unvisCount_le_of_subset nodes hsub) hlt) h
        · split at h
          · rename_i heq
            refine ht _ _ ?_ heq
            exact hlt
          · cases h
          · rename_i st1 heq
            have hsub0 := hm _ _ _ heq
            have hsub : st.visited ⊆ st1.visited := hsub0
            exact ih _ _
              (Nat.lt_of_le_of_lt (unvisCount_le_of_subset nodes hsub) hlt) h
      · split at h
        · -- parameter types
          split at h
          · split at h
            · split at h
              · rename_i heq
                refine ht _ _ ?_ heq
                exact hlt
              · cases h
              · rename_i st1 heq
                have hsub0 := hm _ _ _ heq
                have hsub : st.visited ⊆ st1.visited := hsub0
                exact ih _ _
                  (Nat.lt_of_le_of_lt (unvisCount_le_of_subset nodes hsub) hlt) h
            · split at h
              · rename_i heq
                refine ht _ _ ?_ heq
                exact hlt
              · cases h
              · rename_i st1 heq
                have hsub0 := hm _ _ _ heq
                have hsub : st.visited ⊆ st1.visited := hsub0
                exact ih _ _
                  (Nat.lt_of_le_of_lt (unvisCount_le_of_subset nodes hsub) hlt) h
          · split at h
            · rename_i heq
              refine ht _ _ ?_ heq
              exact hlt
            · cases h
            · rename_i st1 heq
              have hsub0 := hm _ _ _ heq
              have hsub : st.visited ⊆ st1.visited := hsub0
              exact ih _ _
                (Nat.lt_of_le_of_lt (unvisCount_le_of_subset nodes hsub) hlt) h
        · split at h
          · rename_i heq
            refine ht _ _ ?_ heq
            exact hlt
          · cases h
          · rename_i st1 heq
            have hsub0 := hm _ _ _ heq
            have hsub : st.visited ⊆ st1.visited := hsub0
            exact ih _ _
              (Nat.lt_of_le_of_lt (unvisCount_le_of_subset nodes hsub) hlt) h

theorem traverse_no_fuelOut :
    ∀ (fuel : Nat) (nodes : NodeMap) (links : List Link) (nid : String)
      (st : TState),
      unvisCount nodes st.visited < fuel →
      _traverse nodes links fuel nid st ≠ .fuelOut := by
  intro fuel
  induction fuel with
  | zero => intro nodes links nid st hlt; omega
  | succ fuel ih =>
    intro nodes links nid st hlt h
    unfold _traverse at h
    split at h
    · cases h
    · rename_i hnv
      split at h
      · cases h
      · rename_i nd hnd
        split at h
        · cases h
        · split at h
          · split at h
            · cases h
            · cases h
          · rename_i inc hinc hne
            have hkey : nid ∈ nodes.map Prod.fst := lookupNode_mem_keys hnd
            have hlt' : unvisCount nodes (nid :: st.visited) < fuel := by
              have := unvisCount_insert_lt nodes hkey hnv
              omega
            exact traverse_links_no_fuelOut nodes links fuel _
              (fun i s s' hh => traverse_mono fuel nodes links i s s' hh)
              (fun i s hv => ih nodes links i s hv)
              inc nid ⟨st.identified, nid :: st.visited⟩ hlt' h

theorem trace_workflow_inputs_no_fuelOut (nodes : NodeMap) (links : List Link)
    (start : String) : trace_workflow_inputs nodes links start ≠ .fuelOut := by
  apply traverse_no_fuelOut
  show unvisCount nodes [] < nodes.length + 1
  have := unvisCount_le_length nodes []
  omega

/-! ## No exception escapes when the start identifier is numeric: every
recursive call uses `str(link[1])`, which always parses back. -/

theorem trace_prompt_collect_no_exn
    (tps : String → List String → PRes)
    (he : ∀ i v, (pyIntOfStr i).isSome = true → tps i v ≠ .exn) :
    ∀ (ls : List Link) (vis parts : List String) (found : Bool),
      trace_prompt_collect tps ls vis parts found ≠ .exn := by
  intro ls
  induction ls with
  | nil =>
    intro vis parts found h
    simp only [trace_prompt_collect] at h
    cases h
  | cons l rest ih =>
    intro vis parts found h
    simp only [trace_prompt_collect] at h
    split at h
    · split at h
      · cases h
      · rename_i heq
        exact he _ _ (pyIntOfStr_isSome_pyStrOfInt l.src) heq
      · split at h
        · exact ih _ _ _ h
        · exact ih _ _ _ h
    · exact ih _ _ _ h

theorem trace_prompt_source_no_exn :
    ∀ (fuel : Nat) (nodes : NodeMap) (links : List Link) (nid : String)
      (vis : List String),
      (pyIntOfStr nid).isSome = true →
      trace_prompt_source nodes links fuel nid vis ≠ .exn := by
  intro fuel
  induction fuel with
  | zero => intro nodes links nid vis hs h; cases h
  | succ fuel ih =>
    intro nodes links nid vis hs h
    simp only [trace_prompt_source] at h
    split at h
    · cases h
    · split at h
      · cases h
      · split at h
        · cases h
        · split at h
          · rename_i heq
            obtain ⟨t, ht⟩ := Option.isSome_iff_exists.mp hs
            unfold get_node_inputs_from_links at heq
            rw [ht] at heq
            cases heq
          · split at h
            · split at h
              · cases h
              · rename_i heq
                exact trace_prompt_collect_no_exn _
                  (fun i v hi hh => ih nodes links i v hi hh) _ _ _ _ heq
              · cases h
            · split at h
              · cases h
              · rename_i heq
                exact trace_prompt_collect_no_exn _
                  (fun i v hi hh => ih nodes links i v hi hh) _ _ _ _ heq
              · split at h
                · cases h
                · cases h

theorem handle_conditioning_link_no_exn
    (nodes : NodeMap) (links : List Link) (cur : String) (link : Link)
    (identified : CatMap) :
    handle_conditioning_link nodes links cur link identified ≠ .exn := by
  intro h
  simp only [handle_conditioning_link] at h
  split at h
  · cases h
  · split at h
    · cases h
    · rename_i heq
      exact trace_prompt_source_no_exn (nodes.length + 1) nodes links _ []
        (pyIntOfStr_isSome_pyStrOfInt link.src) heq
    · split at h
      · cases h
      · split at h
        · cases h
        · cases h

theorem traverse_links_no_exn
    (nodes : NodeMap) (links : List Link)
    (tv : String → TState → TRes)
    (he : ∀ i s, (pyIntOfStr i).isSome = true → tv i s ≠ .exn) :
    ∀ (ls : List Link) (cur : String) (st : TState),
      traverse_links nodes links tv ls cur st ≠ .exn := by
  intro ls
  induction ls with
  | nil =>
    intro cur st h
    simp only [traverse_links] at h
    cases h
  | cons l rest ih =>
    intro cur st h
    simp only [traverse_links] at h
    split at h
    · split at h
      · cases h
      · rename_i heq
        exact handle_conditioning_link_no_exn nodes links cur l st.identified heq
      · exact ih _ _ h
    · split at h
      · split at h
        · split at h
          · split at h
            · exact ih _ _ h
            · split at h
              · cases h
              · rename_i heq
                exact he _ _ (pyIntOfStr_isSome_pyStrOfInt l.src) heq
              · exact ih _ _ h
          · split at h
            · cases h
            · rename_i heq
              exact he _ _ (pyIntOfStr_isSome_pyStrOfInt l.src) heq
            · exact ih _ _ h
        · split at h
          · cases h
          · rename_i heq
            exact he _ _ (pyIntOfStr_isSome_pyStrOfInt l.src) heq
          · exact ih _ _ h
      · split at h
        · split at h
          · split at h
            · split at h
              · cases h
              · rename_i heq
                exact he _ _ (pyIntOfStr_isSome_pyStrOfInt l.src) heq
              · exact ih _ _ h
            · split at h
              · cases h
              · rename_i heq
                exact he _ _ (pyIntOfStr_isSome_pyStrOfInt l.src) heq
              · exact ih _ _ h
          · split at h
            · cases h
            · rename_i heq
              exact he _ _ (pyIntOfStr_isSome_pyStrOfInt l.src) heq
            · exact ih _ _ h
        · split at h
          · cases h
          · rename_i heq
            exact he _ _ (pyIntOfStr_isSome_pyStrOfInt l.src) heq
          · exact ih _ _ h

theorem traverse_no_exn :
    ∀ (fuel : Nat) (nodes : NodeMap) (links : List Link) (nid : String)
      (st : TState),
      (pyIntOfStr nid).isSome = true →
      _traverse nodes links fuel nid st ≠ .exn := by
  intro fuel
  induction fuel with
  | zero => intro nodes links nid st hs h; cases h
  | succ fuel ih =>
    intro nodes links nid st hs h
    unfold _traverse at h
    split at h
    · cases h
    · split at h
      · cases h
      · split at h
        · rename_i heq
          obtain ⟨t, ht⟩ := Option.isSome_iff_exists.mp hs
          unfold get_node_inputs_from_links at heq
          rw [ht] at heq
          cases heq
        · split at h
          · split at h
            · cases h
            · cases h
          · exact traverse_links_no_exn nodes links _
              (fun i s hi hh => ih nodes links i s hi hh) _ _ _ h

theorem normItem_node_id (c : String) (f : Finding) :
    (normItem c f).node_id = f.node_id := by
  unfold normItem
  split
  · split <;> rfl
  · rfl

theorem normItems_eq (c : String) :
    ∀ (items processed : List Finding) (ids : List String),
      normItems c items processed ids = processed ++ (dedupById items ids).map (normItem c) := by
  intro items
  induction items with
  | nil => intro processed ids; simp [normItems, dedupById]
  | cons f rest ih =>
    intro processed ids
    simp only [normItems, dedupById]
    split
    · exact ih _ _
    · rw [ih]
      simp

theorem dedupById_map_comm (c : String) :
    ∀ (l : List Finding) (ids : List String),
      dedupById (l.map (normItem c)) ids = (dedupById l ids).map (normItem c) := by
  intro l
  induction l with
  | nil => intro ids; rfl
  | cons f rest ih =>
    intro ids
    simp only [List.map_cons, dedupById, normItem_node_id]
    split
    · exact ih _
    · rw [List.map_cons, ih]

theorem dedupById_idem :
    ∀ (l : List Finding) (ids : List String),
      dedupById (dedupById l ids) ids = dedupById l ids := by
  intro l
  induction l with
  | nil => intro ids; rfl
  | cons f rest ih =>
    intro ids
    simp only [dedupById]
    split
    · exact ih _
    · rename_i hmem
      simp only [dedupById, if_neg hmem]
      congr 1
      have hstep : dedupById (dedupById rest (ids ++ [f.node_id])) (ids ++ [f.node_id]) =
          dedupById rest (ids ++ [f.node_id]) := ih _
      calc dedupById (dedupById rest (ids ++ [f.node_id])) (ids ++ [f.node_id])
          = dedupById rest (ids ++ [f.node_id]) := hstep
  -- the outer recursion continues at `ids ++ [f.node_id]` as well

theorem mem_dedupById {f : Finding} :
    ∀ {l : List Finding} {ids : List String}, f ∈ dedupById l ids → f ∈ l := by
  intro l
  induction l with
  | nil => intro ids h; cases h
  | cons g rest ih =>
    intro ids h
    simp only [dedupById] at h
    split at h
    · exact List.mem_cons_of_mem _ (ih h)
    · cases h with
      | head => exact List.mem_cons_self _ _
      | tail _ hh => exact List.mem_cons_of_mem _ (ih hh)

theorem normItem_idem (c : String) (f : Finding)
    (h : ∀ x, f.value? ≠ some (WVal.ls [WVal.ls [x]])) :
    normItem c (normItem c f) = normItem c f := by
  cases hv : f.value? with
  | none => simp [normItem, hv]
  | some v =>
    cases v with
    | s x => simp [normItem, hv]
    | i n => simp [normItem, hv]
    | ls l =>
      cases l with
      | nil => simp [normItem, hv]
      | cons a tl =>
        cases tl with
        | cons b tl2 => simp [normItem, hv]
        | nil =>
          cases a with
          | s str => simp [normItem, hv]
          | i n => simp [normItem, hv]
          | ls l2 =>
            cases l2 with
            | nil => simp [normItem, hv]
            | cons x tl3 =>
              cases tl3 with
              | nil => exact absurd hv (h x)
              | cons y tl4 => simp [normItem, hv]

theorem dedupById_nodup_aux :
    ∀ (l : List Finding) (ids : List String),
      ((dedupById l ids).map Finding.node_id).Nodup ∧
      ∀ f ∈ dedupById l ids, ¬ f.node_id ∈ ids := by
  intro l
  induction l with
  | nil => intro ids; exact ⟨List.nodup_nil, fun f hf => absurd hf (List.not_mem_nil f)⟩
  | cons g rest ih =>
    intro ids
    simp only [dedupById]
    split
    · exact ih ids
    · rename_i hgm
      obtain ⟨hnd, hdis⟩ := ih (ids ++ [g.node_id])
      constructor
      · rw [List.map_cons]
        refine List.nodup_cons.mpr ⟨?_, hnd⟩
        intro hmem
        obtain ⟨f, hf, hfe⟩ := List.mem_map.mp hmem
        exact hdis f hf (by simp [hfe])
      · intro f hf
        cases hf with
        | head => exact hgm
        | tail _ hh =>
          intro hfin
          exact hdis f hh (by simp [hfin])

theorem normItems_nodup (c : String) (items : List Finding) :
    ((normItems c items [] []).map Finding.node_id).Nodup := by
  rw [normItems_eq]
  have hmap : ((dedupById items []).map (normItem c)).map Finding.node_id =
      (dedupById items []).map Finding.node_id := by
    rw [List.map_map]
    apply List.map_congr_left
    intro f _
    exact normItem_node_id c f
  rw [List.nil_append, hmap]
  exact (dedupById_nodup_aux items []).1

theorem process_workflow_metadata_idem (m : CatMap)
    (h : ∀ p ∈ m, ∀ f ∈ p.2, ∀ x, f.value? ≠ some (WVal.ls [WVal.ls [x]])) :
    process_workflow_metadata (process_workflow_metadata m) = process_workflow_metadata m := by
  unfold process_workflow_metadata
  rw [List.map_map]
  apply List.map_congr_left
  intro p hp
  simp only [Function.comp]
  congr 1
  rw [normItems_eq, normItems_eq, List.nil_append, List.nil_append,
    dedupById_map_comm, dedupById_idem, List.map_map]
  apply List.map_congr_left
  intro f hf
  simp only [Function.comp]
  exact normItem_idem p.1 f (h p hp f (mem_dedupById hf))

theorem find?_fst_map_node (l : NodeMap) (k : String)
    (g : String × NodeRec → String × NodeRec)
    (hg : ∀ p, (g p).1 = p.1) :
    (l.map g).find? (fun p => p.1 == k) = (l.find? (fun p => p.1 == k)).map g := by
  induction l with
  | nil => rfl
  | cons a l ih =>
    simp only [List.map_cons, List.find?]
    rw [hg a]
    cases h : a.1 == k with
    | true => rfl
    | false => exact ih

theorem lookupNode_normModeMap (nodes : NodeMap) (nid : String) :
    lookupNode (normModeMap nodes) nid = (lookupNode nodes nid).map normModeNode := by
  unfold lookupNode normModeMap
  rw [find?_fst_map_node nodes nid (fun p => (p.1, normModeNode p.2)) (fun p => rfl)]
  cases nodes.find? (fun p => p.1 == nid) <;> rfl

theorem trace_prompt_collect_congr (tps₁ tps₂ : String → List String → PRes)
    (h : ∀ i v, tps₁ i v = tps₂ i v) :
    ∀ (ls : List Link) (vis parts : List String) (found : Bool),
      trace_prompt_collect tps₁ ls vis parts found =
        trace_prompt_collect tps₂ ls vis parts found := by
  intro ls
  induction ls with
  | nil => intro vis parts found; rfl
  | cons l rest ih =>
    intro vis parts found
    simp only [trace_prompt_collect]
    split
    · rw [h]
      cases tps₂ (pyStrOfInt l.src) vis with
      | fuelOut => rfl
      | exn => rfl
      | ok ps v1 =>
        dsimp only
        split
        · exact ih _ _ _
        · exact ih _ _ _
    · exact ih _ _ _

theorem trace_prompt_source_normMode (nodes : NodeMap) (links : List Link) :
    ∀ (fuel : Nat) (nid : String) (vis : List String),
      trace_prompt_source (normModeMap nodes) links fuel nid vis =
        trace_prompt_source nodes links fuel nid vis := by
  intro fuel
  induction fuel with
  | zero => intro nid vis; rfl
  | succ fuel ih =>
    intro nid vis
    simp only [trace_prompt_source]
    by_cases hmem : nid ∈ vis
    · simp [hmem]
    · simp only [if_neg hmem]
      rw [lookupNode_normModeMap]
      cases hnd : lookupNode nodes nid with
      | none => rfl
      | some nd =>
        simp only [Option.map_some']
        have hpm : pyMode (normModeNode nd) = pyMode nd := rfl
        have hty : (normModeNode nd).type? = nd.type? := rfl
        have hcw : concatWidgetParts (normModeNode nd) = concatWidgetParts nd := rfl
        have hfw : fallbackWidgetParts (normModeNode nd) = fallbackWidgetParts nd := rfl
        have hwt : widgetsTruthy (normModeNode nd) = widgetsTruthy nd := rfl
        have hfun : (fun i v => trace_prompt_source (normModeMap nodes) links fuel i v) =
            (fun i v => trace_prompt_source nodes links fuel i v) :=
          funext (fun i => funext (fun v => ih i v))
        simp only [hpm, hty, hcw, hfw, hwt, hfun]

theorem handle_conditioning_link_normMode (nodes : NodeMap) (links : List Link)
    (cur : String) (link : Link) (identified : CatMap) :
    handle_conditioning_link (normModeMap nodes) links cur link identified =
      handle_conditioning_link nodes links cur link identified := by
  unfold handle_conditioning_link
  have hslot : slotNameLower (normModeMap nodes) cur link = slotNameLower nodes cur link := by
    unfold slotNameLower
    rw [lookupNode_normModeMap]
    cases lookupNode nodes cur with
    | none => rfl
    | some nd => rfl
  have hlen : (normModeMap nodes).length = nodes.length := List.length_map _ _
  have hsrc := trace_prompt_source_normMode nodes links (nodes.length + 1)
    (pyStrOfInt link.src) []
  have hbind1 : ((lookupNode (normModeMap nodes) (pyStrOfInt link.src)).bind (·.type?)) =
      ((lookupNode nodes (pyStrOfInt link.src)).bind (·.type?)) := by
    rw [lookupNode_normModeMap]
    cases lookupNode nodes (pyStrOfInt link.src) <;> rfl
  have hbind2 : ((lookupNode (normModeMap nodes) (pyStrOfInt link.src)).bind (·.title?)) =
      ((lookupNode nodes (pyStrOfInt link.src)).bind (·.title?)) := by
    rw [lookupNode_normModeMap]
    cases lookupNode nodes (pyStrOfInt link.src) <;> rfl
  simp only [hslot, hlen, hsrc, hbind1, hbind2]

theorem traverse_links_normMode (nodes : NodeMap) (links : List Link)
    (tv₁ tv₂ : String → TState → TRes) (h : ∀ i s, tv₁ i s = tv₂ i s) :
    ∀ (ls : List Link) (cur : String) (st : TState),
      traverse_links (normModeMap nodes) links tv₁ ls cur st =
        traverse_links nodes links tv₂ ls cur st := by
  have hfun : tv₁ = tv₂ := funext (fun i => funext (fun s => h i s))
  subst hfun
  intro ls
  induction ls with
  | nil => intro cur st; rfl
  | cons l rest ih =>
    intro cur st
    simp only [traverse_links, handle_conditioning_link_normMode, lookupNode_normModeMap]
    split
    · -- CONDITIONING
      cases handle_conditioning_link nodes links cur l st.identified with
      | fuelOut => rfl
      | exn => rfl
      | ok identified' => exact ih _ _
    · split
      · -- MODEL
        cases hnd : lookupNode nodes (pyStrOfInt l.src) with
        | none =>
          simp only [Option.map_none']
          cases tv₁ (pyStrOfInt l.src) st with
          | fuelOut => rfl
          | exn => rfl
          | ok st' => exact ih _ _
        | some nd =>
          simp only [Option.map_some']
          have hpm : pyMode (normModeNode nd) = pyMode nd := rfl
          have hcl : classifyModelSource (normModeNode nd) = classifyModelSource nd := rfl
          have hty : (normModeNode nd).type? = nd.type? := rfl
          have hti : (normModeNode nd).title? = nd.title? := rfl
          have hwv : (normModeNode nd).widgets_values? = nd.widgets_values? := rfl
          simp only [hpm, hcl, hty, hti, hwv]
          split
          · split
            · exact ih _ _
            · cases tv₁ (pyStrOfInt l.src) _ with
              | fuelOut => rfl
              | exn => rfl
              | ok st' => exact ih _ _
          · cases tv₁ (pyStrOfInt l.src) st with
            | fuelOut => rfl
            | exn => rfl
            | ok st' => exact ih _ _
      · split
        · -- parameter types
          cases hnd : lookupNode nodes (pyStrOfInt l.src) with
          | none =>
            simp only [Option.map_none']
            cases tv₁ (pyStrOfInt l.src) st with
            | fuelOut => rfl
            | exn => rfl
            | ok st' => exact ih _ _
          | some nd =>
            simp only [Option.map_some']
            have hpm : pyMode (normModeNode nd) = pyMode nd := rfl
            have hty : (normModeNode nd).type? = nd.type? := rfl
            have hti : (normModeNode nd).title? = nd.title? := rfl
            have hwv : (normModeNode nd).widgets_values? = nd.widgets_values? := rfl
            have hwt : widgetsTruthy (normModeNode nd) = widgetsTruthy nd := rfl
            simp only [hpm, hty, hti, hwv, hwt]
            split
            · cases tv₁ (pyStrOfInt l.src) _ with
              | fuelOut => rfl
              | exn => rfl
              | ok st' => exact ih _ _
            · cases tv₁ (pyStrOfInt l.src) st with
              | fuelOut => rfl
              | exn => rfl
              | ok st' => exact ih _ _
        · cases tv₁ (pyStrOfInt l.src) st with
          | fuelOut => rfl
          | exn => rfl
          | ok st' => exact ih _ _

theorem traverse_normMode (nodes : NodeMap) (links : List Link) :
    ∀ (fuel : Nat) (nid : String) (st : TState),
      _traverse (normModeMap nodes) links fuel nid st = _traverse nodes links fuel nid st := by
  intro fuel
  induction fuel with
  | zero => intro nid st; rfl
  | succ fuel ih =>
    intro nid st
    unfold _traverse
    by_cases hmem : nid ∈ st.visited
    · simp [hmem]
    · simp only [if_neg hmem]
      rw [lookupNode_normModeMap]
      cases hnd : lookupNode nodes nid with
      | none => rfl
      | some nd =>
        simp only [Option.map_some']
        have hpm : pyMode (normModeNode nd) = pyMode nd := rfl
        have hty : (normModeNode nd).type? = nd.type? := rfl
        have hti : (normModeNode nd).title? = nd.title? := rfl
        have hwt : widgetsTruthy (normModeNode nd) = widgetsTruthy nd := rfl
        simp only [hpm, hty, hti, hwt]
        cases hgi : get_node_inputs_from_links nid links with
        | none => rfl
        | some inc =>
          by_cases hemp : inc.isEmpty = true
          · simp [hemp]
          · simp only [if_neg hemp]
            exact traverse_links_normMode nodes links _ _
              (fun i s => ih i s) inc nid ⟨st.identified, nid :: st.visited⟩

theorem trace_workflow_inputs_normMode (nodes : NodeMap) (links : List Link)
    (start : String) :
    trace_workflow_inputs (normModeMap nodes) links start =
      trace_workflow_inputs nodes links start := by
  unfold trace_workflow_inputs
  rw [show (normModeMap nodes).length = nodes.length from List.length_map _ _]
  exact traverse_normMode nodes links (nodes.length + 1) start ⟨[], []⟩

theorem nestedSingleFree_spec {m : CatMap} (h : nestedSingleFree m = true) :
    ∀ p ∈ m, ∀ f ∈ p.2, ∀ x, f.value? ≠ some (WVal.ls [WVal.ls [x]]) := by
  intro p hp f hf x hval
  have h1 := List.all_eq_true.mp h p hp
  have h2 := List.all_eq_true.mp h1 f hf
  rw [hval] at h2
  cases h2

theorem traverse_visits (fuel : Nat) (nodes : NodeMap) (links : List Link)
    (nid : String) (st st' : TState)
    (h : _traverse nodes links (fuel + 1) nid st = .ok st') : nid ∈ st'.visited := by
  unfold _traverse at h
  split at h
  · rename_i hmem
    cases h
    exact hmem
  · split at h
    · cases h
      exact List.mem_cons_self _ _
    · split at h
      · cases h
      · split at h
        · split at h
          · cases h
            exact List.mem_cons_self _ _
          · cases h
            exact List.mem_cons_self _ _
        · have hmono := traverse_links_mono nodes links _
            (fun i s s' hh => traverse_mono fuel nodes links i s s' hh) _ _ _ _ h
          exact hmono (List.mem_cons_self _ _)

/-! ## Claim theorems -/

/-- C1 (counterexample): the claim's final clause fails on the code.  For the
concrete workflow `wfC1nodes`/`wfC1links`, the sink's CONDITIONING input slot
is named `cond` (neither substring): no category entry is made, but — contrary
to the claim — the traversal does NOT continue upstream from the edge's
source node `"2"`: the final visited set is exactly `["1"]` and the upstream
recordable MODEL source `"3"` never lands under "Base Models". -/
theorem c1_counterexample :
    trace_workflow_inputs wfC1nodes wfC1links "1" = .ok ⟨[], ["1"]⟩ ∧
    ¬ ("2" ∈ (["1"] : List String)) ∧
    aresLookup (analyze_comfyui_workflow (.dict ⟨some (.dictN wfC1nodes), some wfC1links⟩))
      "Base Models" = none := by
  refine ⟨by decide, by decide, by decide⟩

/-- C1 (amended): for a CONDITIONING edge, the target slot name containing
`positive` (checked first) selects "Positive Prompts", `negative` selects
"Negative Prompts" (exactly the spec's categorization); if neither matches,
`_handle_conditioning_link` does nothing at all; and in every case the
general traversal neither marks the edge's source visited nor recurses into
it — processing a CONDITIONING link leaves `visited` untouched and goes
straight on to the remaining links.  When a category is determined, only
that category's findings can change. -/
theorem c1_conditioning_dispatch :
    (∀ name?, condCategory name? = specCondCategory name?) ∧
    (∀ (nodes : NodeMap) (links : List Link) (cur : String) (link : Link)
       (identified : CatMap),
      condCategory (slotNameLower nodes cur link) = none →
      handle_conditioning_link nodes links cur link identified = .ok identified) ∧
    (∀ (nodes : NodeMap) (links : List Link) (tv : String → TState → TRes)
       (l : Link) (rest : List Link) (cur : String) (st : TState),
      l.ptype = "CONDITIONING" →
      traverse_links nodes links tv (l :: rest) cur st =
        match handle_conditioning_link nodes links cur l st.identified with
        | .fuelOut => .fuelOut
        | .exn => .exn
        | .ok identified' => traverse_links nodes links tv rest cur ⟨identified', st.visited⟩) ∧
    (∀ (nodes : NodeMap) (links : List Link) (cur : String) (link : Link)
       (identified identified' : CatMap) (cat c : String),
      condCategory (slotNameLower nodes cur link) = some cat →
      handle_conditioning_link nodes links cur link identified = .ok identified' →
      ¬ c = cat →
      catLookup identified' c = catLookup identified c) := by
  refine ⟨condCategory_eq_spec, ?_, ?_, ?_⟩
  · intro nodes links cur link identified h
    unfold handle_conditioning_link
    rw [h]
  · intro nodes links tv l rest cur st h
    simp only [traverse_links, h]
    rfl
  · intro nodes links cur link identified identified' cat c h1 h2 hne
    unfold handle_conditioning_link at h2
    rw [h1] at h2
    cases htr : trace_prompt_source nodes links (nodes.length + 1) (pyStrOfInt link.src) [] with
    | fuelOut => rw [htr] at h2; cases h2
    | exn => rw [htr] at h2; cases h2
    | ok parts vis =>
      rw [htr] at h2
      dsimp only at h2
      split at h2
      · cases h2; rfl
      · split at h2
        · cases h2; rfl
        · cases h2
          exact catLookup_catAppend_of_ne _ _ _ _ hne

/-- C1 (witness for the amended theorem): the `cond` slot of `wfC1nodes`
determines no category and the handler leaves the category map unchanged. -/
theorem c1_conditioning_dispatch_witness :
    handle_conditioning_link wfC1nodes wfC1links "1" ⟨0, 2, 0, 1, 1, "CONDITIONING"⟩ [] =
      .ok [] :=
  c1_conditioning_dispatch.2.1 wfC1nodes wfC1links "1" _ [] (by decide)

/-- C6: the MODEL-edge classification agrees with the spec's rule (LoRA
keywords, else the `model`-input heuristic, else "Base Models"), and in
Scenario E the LoraLoader lands under "LoRA Models" while the
CheckpointLoader lands under "Base Models" — both appear. -/
theorem c6_model_classification :
    (∀ nd, classifyModelSource nd = specClassifyModelSource nd) ∧
    ((aresLookup (analyze_comfyui_workflow wfE) "LoRA Models").getD []).map
        Finding.node_id = ["3"] ∧
    ((aresLookup (analyze_comfyui_workflow wfE) "Base Models").getD []).map
        Finding.node_id = ["4"] :=
  ⟨classifyModelSource_eq_spec, by decide, by decide⟩

/-- C9: when the Text Resolver returns an empty parts list for a
CONDITIONING edge with a determined category, no finding at all is recorded:
the handler returns the category map unchanged. -/
theorem c9_empty_resolution_no_finding :
    ∀ (nodes : NodeMap) (links : List Link) (cur : String) (link : Link)
      (identified : CatMap) (cat : String) (vis : List String),
      condCategory (slotNameLower nodes cur link) = some cat →
      trace_prompt_source nodes links (nodes.length + 1) (pyStrOfInt link.src) [] =
        .ok [] vis →
      handle_conditioning_link nodes links cur link identified = .ok identified := by
  intro nodes links cur link identified cat vis h1 h2
  unfold handle_conditioning_link
  rw [h1, h2]
  rfl

/-- C9 (witness): the sink's `positive` slot fed from the missing node `"7"`
resolves to no parts and records nothing. -/
theorem c9_empty_resolution_no_finding_witness :
    handle_conditioning_link wfC9nodes wfC9links "1" ⟨0, 7, 0, 1, 0, "CONDITIONING"⟩
      [("Positive Prompts", [])] = .ok [("Positive Prompts", [])] :=
  c9_empty_resolution_no_finding wfC9nodes wfC9links "1" _ _ "Positive Prompts" ["7"]
    (by decide) (by decide)

/-- C2 (counterexample): the workflow `wfC2nodes` is fully accepted by the
entry point — nodes normalize, links are nonempty, a sink is located (under
the non-numeric key `"abc"`) — yet the traversal raises: `int("abc")` in
`get_node_inputs_from_links` throws a ValueError, so the analysis ends in an
exception rather than completing. -/
theorem c2_counterexample :
    (find_image_save_node wfC2nodes).map Prod.fst = some "abc" ∧
    analyze_comfyui_workflow (.dict ⟨some (.dictN wfC2nodes), some wfC2links⟩) = .exn := by
  exact ⟨by decide, by decide⟩

/-- C2 (amended): for every workflow accepted by the entry point whose
located sink identifier parses as an integer, no exception propagates to the
caller (and the chosen fuel is never exhausted): the analysis ends in the
"no result" signal or a returned category map. -/
theorem c2_no_exception :
    ∀ (w : PyWorkflow) (nds : NodeMap) (nid : String) (nd : NodeRec),
      normalize_nodes w.nodes? = .okN nds →
      find_image_save_node nds = some (nid, nd) →
      (pyIntOfStr nid).isSome = true →
      analyze_comfyui_workflow (.dict w) ≠ .exn ∧
      analyze_comfyui_workflow (.dict w) ≠ .fuelOut := by
  intro w nds nid nd hnorm hfind hparse
  have hred : analyze_comfyui_workflow (.dict w) =
      (if nds.isEmpty || (w.links?.getD []).isEmpty then ARes.retNone
       else
         match find_image_save_node nds with
         | none => .retNone
         | some (image_save_node_id, _) =>
           if image_save_node_id == "" then .retNone
           else
             match trace_workflow_inputs nds (w.links?.getD []) image_save_node_id with
             | .fuelOut => .fuelOut
             | .exn => .exn
             | .ok st => .ok (process_workflow_metadata st.identified)) := by
    simp only [analyze_comfyui_workflow, hnorm]
  rw [hred]
  by_cases hempty : (nds.isEmpty || (w.links?.getD []).isEmpty) = true
  · rw [if_pos hempty]
    exact ⟨by decide, by decide⟩
  · rw [if_neg hempty]
    simp only [hfind]
    by_cases hnid : (nid == "") = true
    · rw [if_pos hnid]
      exact ⟨by decide, by decide⟩
    · rw [if_neg hnid]
      cases htr : trace_workflow_inputs nds (w.links?.getD []) nid with
      | fuelOut => exact absurd htr (trace_workflow_inputs_no_fuelOut _ _ _)
      | exn =>
        unfold trace_workflow_inputs at htr
        exact absurd htr (traverse_no_exn _ _ _ _ _ hparse)
      | ok st =>
        exact ⟨fun hc => ARes.noConfusion hc, fun hc => ARes.noConfusion hc⟩

/-- C2 (witness for the amended theorem): Scenario E's workflow has numeric
node keys; its analysis raises nothing and exhausts no fuel. -/
theorem c2_no_exception_witness :
    analyze_comfyui_workflow (.dict ⟨some (.dictN wfEnodes), some wfElinks⟩) ≠ .exn ∧
    analyze_comfyui_workflow (.dict ⟨some (.dictN wfEnodes), some wfElinks⟩) ≠ .fuelOut :=
  c2_no_exception ⟨some (.dictN wfEnodes), some wfElinks⟩ wfEnodes "1"
    ⟨none, some "SaveImage", none, none, some [⟨some "images", some "IMAGE"⟩], none⟩
    (by decide) (by decide) (by decide)

/-- C3 (counterexample): in `wfC3nodes` the sink's MODEL edge has the
enabled source `"2"` with no `widgets_values`; the tracer does NOT recurse
into it — the final visited set is just `["1"]` and the upstream VAE source
is never recorded — contradicting the claim's "recurses … in particular also
when the source's widgets_values is empty or absent". -/
theorem c3_counterexample :
    trace_workflow_inputs wfC3nodes wfC3links "1" = .ok ⟨[], ["1"]⟩ ∧
    ¬ ("2" ∈ (["1"] : List String)) := by
  exact ⟨by decide, by decide⟩

/-- C3 (amended): processing a MODEL edge recurses into the source exactly
when the source is missing, disabled, or enabled with nonempty
`widgets_values`; an enabled source with empty/absent `widgets_values` is
skipped entirely (no categorization and no recursion). -/
theorem c3_model_edge_recursion :
    (∀ (nodes : NodeMap) (links : List Link) (tv : String → TState → TRes)
       (l : Link) (rest : List Link) (cur : String) (st : TState) (ond : NodeRec),
      l.ptype = "MODEL" →
      lookupNode nodes (pyStrOfInt l.src) = some ond →
      pyMode ond = 0 →
      (ond.widgets_values?.getD []).isEmpty = true →
      traverse_links nodes links tv (l :: rest) cur st =
        traverse_links nodes links tv rest cur st) ∧
    (∀ (fuel : Nat) (nodes : NodeMap) (links : List Link)
       (l : Link) (rest : List Link) (cur : String) (st st' : TState),
      l.ptype = "MODEL" →
      (lookupNode nodes (pyStrOfInt l.src) = none ∨
        ∃ ond, lookupNode nodes (pyStrOfInt l.src) = some ond ∧
          (¬ pyMode ond = 0 ∨ ¬ (ond.widgets_values?.getD []).isEmpty = true)) →
      traverse_links nodes links (fun i s => _traverse nodes links (fuel + 1) i s)
        (l :: rest) cur st = .ok st' →
      pyStrOfInt l.src ∈ st'.visited) := by
  constructor
  · intro nodes links tv l rest cur st ond hl hlk hmode hempty
    simp only [traverse_links, hl, hlk, hmode, hempty]
    rfl
  · intro fuel nodes links l rest cur st st' hl hsrc h
    simp only [traverse_links, hl] at h
    rw [if_neg (by decide), if_pos (by decide)] at h
    rcases hsrc with hmiss | ⟨ond, hlk, hbad⟩
    · simp only [hmiss] at h
      cases htv : _traverse nodes links (fuel + 1) (pyStrOfInt l.src) st with
      | fuelOut => rw [htv] at h; cases h
      | exn => rw [htv] at h; cases h
      | ok st1 =>
        rw [htv] at h
        have h1 : pyStrOfInt l.src ∈ st1.visited := traverse_visits fuel nodes links _ _ _ htv
        exact traverse_links_mono nodes links _
          (fun i s s' hh => traverse_mono (fuel + 1) nodes links i s s' hh) _ _ _ _ h h1
    · simp only [hlk] at h
      rcases hbad with hdis | hwid
      · rw [if_neg (by simpa using hdis)] at h
        cases htv : _traverse nodes links (fuel + 1) (pyStrOfInt l.src) st with
        | fuelOut => rw [htv] at h; cases h
        | exn => rw [htv] at h; cases h
        | ok st1 =>
          rw [htv] at h
          have h1 : pyStrOfInt l.src ∈ st1.visited := traverse_visits fuel nodes links _ _ _ htv
          exact traverse_links_mono nodes links _
            (fun i s s' hh => traverse_mono (fuel + 1) nodes links i s s' hh) _ _ _ _ h h1
      · by_cases hmode : (pyMode ond == 0) = true
        · rw [if_pos hmode, if_neg hwid] at h
          cases htv : _traverse nodes links (fuel + 1) (pyStrOfInt l.src) _ with
          | fuelOut => rw [htv] at h; cases h
          | exn => rw [htv] at h; cases h
          | ok st1 =>
            rw [htv] at h
            have h1 : pyStrOfInt l.src ∈ st1.visited := traverse_visits fuel nodes links _ _ _ htv
            exact traverse_links_mono nodes links _
              (fun i s s' hh => traverse_mono (fuel + 1) nodes links i s s' hh) _ _ _ _ h h1
        · rw [if_neg hmode] at h
          cases htv : _traverse nodes links (fuel + 1) (pyStrOfInt l.src) st with
          | fuelOut => rw [htv] at h; cases h
          | exn => rw [htv] at h; cases h
          | ok st1 =>
            rw [htv] at h
            have h1 : pyStrOfInt l.src ∈ st1.visited := traverse_visits fuel nodes links _ _ _ htv
            exact traverse_links_mono nodes links _
              (fun i s s' hh => traverse_mono (fuel + 1) nodes links i s s' hh) _ _ _ _ h h1

/-- C3 (witness for the amended theorem): the skip equation holds at the
concrete enabled-but-widgetless MODEL source of `wfC3nodes`, and in Scenario
E the recursion into the recordable LoraLoader source `"3"` marks it
visited. -/
theorem c3_model_edge_recursion_witness :
    (traverse_links wfC3nodes wfC3links (fun i s => _traverse wfC3nodes wfC3links 3 i s)
        [⟨0, 2, 0, 1, 0, "MODEL"⟩] "1" ⟨[], ["1"]⟩ =
      traverse_links wfC3nodes wfC3links (fun i s => _traverse wfC3nodes wfC3links 3 i s)
        [] "1" ⟨[], ["1"]⟩) ∧
    pyStrOfInt (3 : Int) ∈
      (TState.mk
        [("LoRA Models",
          [⟨"3", "LoraLoader", "Node 3 (LoraLoader)", some "MODEL",
            some (.ls [.s "lora.safetensors"]), none⟩]),
         ("Base Models",
          [⟨"4", "CheckpointLoaderSimple", "Node 4 (CheckpointLoaderSimple)", some "MODEL",
            some (.ls [.s "SDXL/base.safetensors"]), none⟩])]
        ["4", "3"]).visited :=
  ⟨c3_model_edge_recursion.1 wfC3nodes wfC3links _ _ [] "1" ⟨[], ["1"]⟩
      ⟨none, some "UNETLoader", none, none, none, none⟩
      rfl (by decide) (by decide) (by decide),
   c3_model_edge_recursion.2 3 wfEnodes wfElinks ⟨1, 3, 0, 2, 0, "MODEL"⟩ [] "2" ⟨[], []⟩
      ⟨[("LoRA Models",
          [⟨"3", "LoraLoader", "Node 3 (LoraLoader)", some "MODEL",
            some (.ls [.s "lora.safetensors"]), none⟩]),
        ("Base Models",
          [⟨"4", "CheckpointLoaderSimple", "Node 4 (CheckpointLoaderSimple)", some "MODEL",
            some (.ls [.s "SDXL/base.safetensors"]), none⟩])]
        , ["4", "3"]⟩
      rfl
      (Or.inr ⟨⟨none, some "LoraLoader", none, none, some [⟨some "model", some "MODEL"⟩],
        some [.s "lora.safetensors"]⟩, by decide, Or.inr (by decide)⟩)
      (by decide)⟩

/-- C4 (counterexample): a `nodes` list containing a non-mapping element is
a collection that is "neither a mapping nor a sequence of records with id
fields", yet the code raises an AttributeError (from `.get` on the
non-mapping element) instead of returning the no-result value. -/
theorem c4_counterexample :
    analyze_comfyui_workflow (.dict ⟨some (.listN [none]), some [⟨0, 0, 0, 0, 0, "X"⟩]⟩) =
      .exn ∧ ARes.exn ≠ ARes.retNone :=
  ⟨by decide, by decide⟩

/-- C4 (amended): the entry point returns `None` exactly when the input is
not a mapping, `nodes` has an unrecognized shape, the normalized node
mapping is empty, `links` is empty or absent, no sink is located, or the
located sink's identifier is the empty string; a list-form `nodes` with a
non-mapping element raises instead. -/
theorem c4_none_characterization :
    ∀ inp, analyze_comfyui_workflow inp = .retNone ↔ returnsNoneCond inp := by
  intro inp
  cases inp with
  | notDict => simp [analyze_comfyui_workflow, returnsNoneCond]
  | dict w =>
    cases hn : normalize_nodes w.nodes? with
    | exn => simp [analyze_comfyui_workflow, returnsNoneCond, hn]
    | notAShape => simp [analyze_comfyui_workflow, returnsNoneCond, hn]
    | okN nds =>
      simp only [analyze_comfyui_workflow, returnsNoneCond, hn]
      by_cases hempty : (nds.isEmpty || (w.links?.getD []).isEmpty) = true
      · rw [if_pos hempty]
        refine iff_of_true rfl ?_
        rcases (by simpa using hempty :
            nds.isEmpty = true ∨ (w.links?.getD []).isEmpty = true) with ha | hb
        · exact Or.inl ha
        · exact Or.inr (Or.inl hb)
      · rw [if_neg hempty]
        have hor := hempty
        rw [Bool.or_eq_true] at hor
        push_neg at hor
        cases hfind : find_image_save_node nds with
        | none =>
          refine iff_of_true ?_ (Or.inr (Or.inr (Or.inl rfl)))
          rfl
        | some p =>
          obtain ⟨nid, nd⟩ := p
          dsimp only
          by_cases hnid : (nid == "") = true
          · rw [if_pos hnid]
            refine iff_of_true rfl (Or.inr (Or.inr (Or.inr ?_)))
            have : nid = "" := eq_of_beq hnid
            rw [this]
            rfl
          · rw [if_neg hnid]
            have hrhs : ¬ (nds.isEmpty = true ∨ (w.links?.getD []).isEmpty = true ∨
                (some (nid, nd) : Option (String × NodeRec)) = none ∨
                (some nid : Option String) = some "") := by
              intro hr
              rcases hr with h1 | h2 | h3 | h4
              · exact hor.1 h1
              · exact hor.2 h2
              · cases h3
              · have : nid = "" := Option.some.inj h4
                exact hnid (by rw [this]; rfl)
            cases htr : trace_workflow_inputs nds (w.links?.getD []) nid with
            | fuelOut => exact iff_of_false (fun hc => ARes.noConfusion hc) hrhs
            | exn => exact iff_of_false (fun hc => ARes.noConfusion hc) hrhs
            | ok st => exact iff_of_false (fun hc => ARes.noConfusion hc) hrhs

/-- C7 (counterexample): the normalizer is not idempotent on a map whose
finding value is a nested single-element list — and such maps are produced
by the tracer itself: on `wfC7nodes` (a MODEL source whose `widgets_values`
is the singleton nested sequence `[["a"]]`) the raw tracer output is
`c7raw`, the first normalization pass unwraps the value to `["a"]`, and the
second pass unwraps again to `"a"`. -/
theorem c7_counterexample :
    trace_workflow_inputs wfC7nodes wfC7links "1" = .ok ⟨c7raw, ["2", "1"]⟩ ∧
    ¬ (process_workflow_metadata (process_workflow_metadata c7raw) =
        process_workflow_metadata c7raw) :=
  ⟨by decide, by decide⟩

/-- C7 (amended): the normalizer is idempotent exactly on the Category Maps
none of whose finding values is a single-element list wrapping another
single-element list; maps outside that class keep collapsing under repeated
normalization, and the tracer itself can produce them (see
`c7_counterexample`), so the idempotence is conditional, not general. -/
theorem c7_normalizer_idempotent :
    ∀ (m : CatMap), nestedSingleFree m = true →
      process_workflow_metadata (process_workflow_metadata m) =
        process_workflow_metadata m :=
  fun m h => process_workflow_metadata_idem m (nestedSingleFree_spec h)

/-- C7 (witness): a model finding with a path-valued singleton list
normalizes idempotently. -/
theorem c7_normalizer_idempotent_witness :
    nestedSingleFree
        [("Base Models", [⟨"1", "t", "t", some "MODEL", some (.ls [.s "a/b"]), none⟩])] = true ∧
    process_workflow_metadata (process_workflow_metadata
        [("Base Models", [⟨"1", "t", "t", some "MODEL", some (.ls [.s "a/b"]), none⟩])]) =
      process_workflow_metadata
        [("Base Models", [⟨"1", "t", "t", some "MODEL", some (.ls [.s "a/b"]), none⟩])] :=
  ⟨by decide, c7_normalizer_idempotent _ (by decide)⟩

/-- C8 (counterexample): with one VAE source feeding two reachable
consumers, the raw tracer output holds the same `node_id` twice under the
"VAE" category — the traversal's findings are NOT free of duplicate node
ids (only the normalized final output is). -/
theorem c8_counterexample :
    ((tresLookup (trace_workflow_inputs wfC8nodes wfC8links "1") "VAE").getD []).map
        Finding.node_id = ["4", "4"] ∧
    ¬ (["4", "4"] : List String).Nodup :=
  ⟨by decide, by decide⟩

/-- C8 (amended): for every workflow graph — cyclic ones included — the
traversal never exhausts its fuel bound (termination), and every category of
the normalizer's output (the engine's returned Category Map) is free of
duplicate `node_id`s. -/
theorem c8_termination_and_dedup :
    (∀ (nodes : NodeMap) (links : List Link) (start : String),
      trace_workflow_inputs nodes links start ≠ .fuelOut) ∧
    (∀ (m : CatMap) (c : String) (fs : List Finding),
      catLookup (process_workflow_metadata m) c = some fs →
      (fs.map Finding.node_id).Nodup) := by
  refine ⟨trace_workflow_inputs_no_fuelOut, ?_⟩
  intro m c fs h
  unfold process_workflow_metadata catLookup at h
  rw [find?_key_map m c (fun p => (p.1, normItems p.1 p.2 [] [])) (fun p => rfl)] at h
  cases hf : m.find? (fun p => p.1 == c) with
  | none => rw [hf] at h; cases h
  | some p =>
    rw [hf] at h
    simp only [Option.map_some'] at h
    cases h
    exact normItems_nodup _ _

/-- C8 (witness): the cyclic-safe traversal of `wfC8nodes` does not run out
of fuel, and normalizing a map with a duplicated node id leaves a
duplicate-free category. -/
theorem c8_termination_and_dedup_witness :
    trace_workflow_inputs wfC8nodes wfC8links "1" ≠ TRes.fuelOut ∧
    ((([⟨"4", "t", "t", none, none, none⟩] : List Finding).map Finding.node_id).Nodup) :=
  ⟨c8_termination_and_dedup.1 wfC8nodes wfC8links "1",
   c8_termination_and_dedup.2
     [("VAE", [⟨"4", "t", "t", none, none, none⟩, ⟨"4", "t", "t", none, none, none⟩])] "VAE"
     [⟨"4", "t", "t", none, none, none⟩] (by decide)⟩

/-- C10: a node record without a `mode` field is treated as enabled
(`mode = 0`) at every point where mode is consulted: writing `mode = 0`
explicitly into every node (which is what `normModeNode` does on a record
with no `mode`) changes nothing about the traversal — and hence nothing
about the source-node recording step, the MODEL-edge handler, the
parameter-edge handler, or the Text Resolver's disabled-node check, all of
which live inside it. -/
theorem c10_missing_mode_is_enabled :
    (∀ nd : NodeRec, nd.mode? = none →
      normModeNode nd = ⟨nd.id?, nd.type?, nd.title?, some 0, nd.inputs?, nd.widgets_values?⟩) ∧
    (∀ (nodes : NodeMap) (links : List Link) (start : String),
      trace_workflow_inputs (normModeMap nodes) links start =
        trace_workflow_inputs nodes links start) := by
  constructor
  · intro nd h
    unfold normModeNode pyMode
    rw [h]
    rfl
  · exact trace_workflow_inputs_normMode

/-- C10 (witness): a concrete node without `mode` normalizes to the same
record with `mode = 0`, and the traversal of Scenario E is unchanged by the
normalization. -/
theorem c10_missing_mode_is_enabled_witness :
    normModeNode ⟨none, some "KSampler", none, none, none, none⟩ =
      ⟨none, some "KSampler", none, some 0, none, none⟩ ∧
    trace_workflow_inputs (normModeMap wfEnodes) wfElinks "1" =
      trace_workflow_inputs wfEnodes wfElinks "1" :=
  ⟨c10_missing_mode_is_enabled.1 ⟨none, some "KSampler", none, none, none, none⟩ rfl,
   c10_missing_mode_is_enabled.2 wfEnodes wfElinks "1"⟩
